import Mathlib

/-!
# mcp-language-server: capability predicates, registries and file-operation fan-out

A shallow embedding of

* `internal/lsp/capabilities.go` (the capability predicates over the captured
  `ServerCapabilities` document),
* `internal/fileops/handler.go`, `internal/fileops/types.go` (the
  `FileOperationsHandler` publish/subscribe fan-out),
* `internal/lsp/notification_waiter.go` (the `WaiterRegistry`),
* `internal/lsp/file_operations.go` (the file-operation handlers of the
  client),
* `internal/tools/semantic-tokens.go`, `internal/tools/type-hierarchy.go`,
  `internal/tools/inlay-hints.go` (three of the tools), and
* the rename-detection state machine of the workspace watcher and the
  request/response correlation of the transport, modelled from their
  specification,

followed by theorems about them.

Conventions of the embedding:

* a Go pointer `*T` is `Option T` (`none` is the nil pointer);
* a Go `interface{}` value is `Option GoValue` (`none` is the nil interface);
* a Go slice is a `List`; the nil slice and the empty slice both have
  length 0 and are both `[]`;
* a method with a pointer receiver returns the receiver state after the call,
  together with the calls it made on listeners (its deliveries);
* objects reached through pointers that several places share (the notification
  waiters) live in a store indexed by their address;
* functions of the Go standard library (`encoding/json`) are parameters.
-/

namespace McpLanguageServer

/-! ## Definitions -/

namespace protocol

/-- Modelled from the spec: the wire-schema struct `protocol.WorkspaceSymbolOptions`
(package `internal/protocol`); only the `ResolveProvider` boolean read by
`HasWorkspaceSymbolResolveSupport` is kept. -/
structure WorkspaceSymbolOptions where
  ResolveProvider : Bool
  deriving Repr

/-- Modelled from the spec: the wire-schema struct `protocol.SignatureHelpOptions`
(package `internal/protocol`), with its trigger character lists. -/
structure SignatureHelpOptions where
  TriggerCharacters : List String
  RetriggerCharacters : List String
  deriving Repr

/-- Modelled from the spec: the wire-schema struct `protocol.CodeLensOptions`
(package `internal/protocol`). -/
structure CodeLensOptions where
  ResolveProvider : Bool
  deriving Repr

/-- Modelled from the spec: the wire-schema struct
`protocol.DocumentOnTypeFormattingOptions` (package `internal/protocol`). -/
structure DocumentOnTypeFormattingOptions where
  FirstTriggerCharacter : String
  MoreTriggerCharacter : List String
  deriving Repr

/-- Modelled from the spec: the dynamic values a Go `interface{}` of the
capabilities document can hold: a plain `bool`, a decoded JSON object
(`map[string]interface{}`, whose entries may themselves be nil interfaces), a
`protocol.WorkspaceSymbolOptions` struct held by value, or a value of any other
dynamic type (a string, a number, a pointer, another struct), named by `kind`.
The nil interface is not a `GoValue`: it is the `none` of `Option GoValue`. -/
inductive GoValue where
  | bool (b : Bool)
  | object (entries : List (String × Option GoValue))
  | workspaceSymbolOptions (o : WorkspaceSymbolOptions)
  | other (kind : String)

/-- Modelled from the spec: the wrapper structs `protocol.Or_ServerCapabilities_*`
(package `internal/protocol`): one `Value interface{}` field holding the
union member, or nil. -/
structure OrProvider where
  Value : Option GoValue

/-- Modelled from the spec: the struct `protocol.ServerCapabilities` (package
`internal/protocol`), restricted to the fields read by `capabilities.go`.
`Or_*` pointer fields are `Option OrProvider`, `interface{}` fields are
`Option GoValue`, and pointer-to-options fields are `Option` of the options
struct. -/
structure ServerCapabilities where
  DefinitionProvider : Option OrProvider := none
  ReferencesProvider : Option OrProvider := none
  HoverProvider : Option OrProvider := none
  DocumentSymbolProvider : Option OrProvider := none
  CallHierarchyProvider : Option OrProvider := none
  WorkspaceSymbolProvider : Option OrProvider := none
  RenameProvider : Option GoValue := none
  CodeActionProvider : Option GoValue := none
  SignatureHelpProvider : Option SignatureHelpOptions := none
  CodeLensProvider : Option CodeLensOptions := none
  FoldingRangeProvider : Option OrProvider := none
  SelectionRangeProvider : Option OrProvider := none
  SemanticTokensProvider : Option GoValue := none
  TypeHierarchyProvider : Option OrProvider := none
  InlayHintProvider : Option GoValue := none
  DocumentFormattingProvider : Option OrProvider := none
  DocumentRangeFormattingProvider : Option OrProvider := none
  DocumentOnTypeFormattingProvider : Option DocumentOnTypeFormattingOptions := none

end protocol

open protocol

namespace lsp

/-- Go map indexing `opts[key]` with the comma-ok form: the entry stored under
`key` (`some v`, where `v` may be the nil interface), or `none` when the key is
missing. -/
def mapIndex (entries : List (String × Option GoValue)) (key : String) :
    Option (Option GoValue) :=
  match entries with
  | [] => none
  | (k, v) :: rest => if k = key then some v else mapIndex rest key

/-- The two-part test `p != nil && p.Value != nil` on an `Or_*` pointer field. -/
def orProviderSet (p : Option OrProvider) : Bool :=
  match p with
  | none => false
  | some w => w.Value.isSome

/-- `HasDefinitionSupport`: textDocument/definition AND workspace/symbol. -/
def HasDefinitionSupport (caps : Option ServerCapabilities) : Bool :=
  match caps with
  | none => false
  | some caps =>
    orProviderSet caps.DefinitionProvider &&
      orProviderSet caps.WorkspaceSymbolProvider

/-- `HasReferencesSupport`: textDocument/references. -/
def HasReferencesSupport (caps : Option ServerCapabilities) : Bool :=
  match caps with
  | none => false
  | some caps => orProviderSet caps.ReferencesProvider

/-- `HasHoverSupport`: textDocument/hover. -/
def HasHoverSupport (caps : Option ServerCapabilities) : Bool :=
  match caps with
  | none => false
  | some caps => orProviderSet caps.HoverProvider

/-- `HasDocumentSymbolSupport`: textDocument/documentSymbol. -/
def HasDocumentSymbolSupport (caps : Option ServerCapabilities) : Bool :=
  match caps with
  | none => false
  | some caps => orProviderSet caps.DocumentSymbolProvider

/-- `HasCallHierarchySupport`: call hierarchy. -/
def HasCallHierarchySupport (caps : Option ServerCapabilities) : Bool :=
  match caps with
  | none => false
  | some caps => orProviderSet caps.CallHierarchyProvider

/-- `HasWorkspaceSymbolSupport`: workspace/symbol. -/
def HasWorkspaceSymbolSupport (caps : Option ServerCapabilities) : Bool :=
  match caps with
  | none => false
  | some caps => orProviderSet caps.WorkspaceSymbolProvider

/-- `HasRenameSupport`: textDocument/rename (`interface{}` field, nil check). -/
def HasRenameSupport (caps : Option ServerCapabilities) : Bool :=
  match caps with
  | none => false
  | some caps => caps.RenameProvider.isSome

/-- `HasCodeActionSupport`: textDocument/codeAction (`interface{}` field). -/
def HasCodeActionSupport (caps : Option ServerCapabilities) : Bool :=
  match caps with
  | none => false
  | some caps => caps.CodeActionProvider.isSome

/-- `HasSignatureHelpSupport`: textDocument/signatureHelp (pointer field). -/
def HasSignatureHelpSupport (caps : Option ServerCapabilities) : Bool :=
  match caps with
  | none => false
  | some caps => caps.SignatureHelpProvider.isSome

/-- `HasCodeLensSupport`: textDocument/codeLens (pointer field). -/
def HasCodeLensSupport (caps : Option ServerCapabilities) : Bool :=
  match caps with
  | none => false
  | some caps => caps.CodeLensProvider.isSome

/-- `HasFoldingRangeSupport`: textDocument/foldingRange. -/
def HasFoldingRangeSupport (caps : Option ServerCapabilities) : Bool :=
  match caps with
  | none => false
  | some caps => orProviderSet caps.FoldingRangeProvider

/-- `HasSelectionRangeSupport`: textDocument/selectionRange. -/
def HasSelectionRangeSupport (caps : Option ServerCapabilities) : Bool :=
  match caps with
  | none => false
  | some caps => orProviderSet caps.SelectionRangeProvider

/-- `HasSemanticTokensSupport`: textDocument/semanticTokens (`interface{}` field). -/
def HasSemanticTokensSupport (caps : Option ServerCapabilities) : Bool :=
  match caps with
  | none => false
  | some caps => caps.SemanticTokensProvider.isSome

/-- `HasTypeHierarchySupport`: type hierarchy. -/
def HasTypeHierarchySupport (caps : Option ServerCapabilities) : Bool :=
  match caps with
  | none => false
  | some caps => orProviderSet caps.TypeHierarchyProvider

/-- `HasInlayHintSupport`: textDocument/inlayHint (`interface{}` field). -/
def HasInlayHintSupport (caps : Option ServerCapabilities) : Bool :=
  match caps with
  | none => false
  | some caps => caps.InlayHintProvider.isSome

/-- `AlwaysSupported`: core tools that need no capability check. -/
def AlwaysSupported : Bool := true

/-- `HasWorkspaceSymbolResolveSupport`: workspace/resolveWorkspaceSymbol. The
type assertion `Value.(protocol.WorkspaceSymbolOptions)` succeeds only on the
`workspaceSymbolOptions` variant. -/
def HasWorkspaceSymbolResolveSupport (caps : Option ServerCapabilities) : Bool :=
  match caps with
  | none => false
  | some caps =>
    match caps.WorkspaceSymbolProvider with
    | none => false
    | some w =>
      match w.Value with
      | none => false
      | some (GoValue.workspaceSymbolOptions opts) => opts.ResolveProvider
      | some _ => false

/-- `HasPrepareRenameSupport`: textDocument/prepareRename. The type assertion
`RenameProvider.(map[string]interface{})` succeeds only on the `object`
variant, and `prepareProvider.(bool)` only on a `bool` entry. -/
def HasPrepareRenameSupport (caps : Option ServerCapabilities) : Bool :=
  match caps with
  | none => false
  | some caps =>
    match caps.RenameProvider with
    | none => false
    | some (GoValue.object opts) =>
      match mapIndex opts "prepareProvider" with
      | some (some (GoValue.bool prepare)) => prepare
      | _ => false
    | some _ => false

/-- `HasFormattingSupport`: textDocument/formatting. -/
def HasFormattingSupport (caps : Option ServerCapabilities) : Bool :=
  match caps with
  | none => false
  | some caps => orProviderSet caps.DocumentFormattingProvider

/-- `HasRangeFormattingSupport`: textDocument/rangeFormatting. -/
def HasRangeFormattingSupport (caps : Option ServerCapabilities) : Bool :=
  match caps with
  | none => false
  | some caps => orProviderSet caps.DocumentRangeFormattingProvider

/-- `HasOnTypeFormattingSupport`: textDocument/onTypeFormatting (pointer field). -/
def HasOnTypeFormattingSupport (caps : Option ServerCapabilities) : Bool :=
  match caps with
  | none => false
  | some caps => caps.DocumentOnTypeFormattingProvider.isSome

end lsp

namespace fileops

/-- `FileEventType` is a Go `int`. -/
abbrev FileEventType := Int

/-- `FileEventCreated` (iota 0): a file was created. -/
def FileEventCreated : FileEventType := 0

/-- `FileEventRenamed` (iota 1): a file was renamed. -/
def FileEventRenamed : FileEventType := 1

/-- `FileEventDeleted` (iota 2): a file was deleted. -/
def FileEventDeleted : FileEventType := 2

/-- `FileEvent`: a file operation event. The Go field `Type` is named `Kind`
here (`Type` is reserved in Lean). -/
structure FileEvent where
  Kind : FileEventType
  URIs : List String
  deriving DecidableEq, Repr

/-- `FileCreate`: a file to be created. -/
structure FileCreate where
  URI : String
  deriving DecidableEq, Repr

/-- `FileRename`: a file rename operation. -/
structure FileRename where
  OldURI : String
  NewURI : String
  deriving DecidableEq, Repr

/-- `FileDelete`: a file to be deleted. -/
structure FileDelete where
  URI : String
  deriving DecidableEq, Repr

/-- A `FileOperationsListener` interface value, compared by identity (`l ==
listener` on pointer-backed interface values): `ref` stands for the address of
the listener object. -/
structure FileOperationsListener where
  ref : Nat
  deriving DecidableEq, Repr

/-- One call `listener.OnFileEvent(event)`. -/
structure Delivery where
  listener : FileOperationsListener
  event : FileEvent
  deriving DecidableEq, Repr

/-- `FileOperationsHandler`: the registered listeners (the mutex is not
modelled; every method below runs as one atomic step). -/
structure FileOperationsHandler where
  listeners : List FileOperationsListener
  deriving DecidableEq, Repr

/-- `NewFileOperationsHandler`: a handler with no listener. -/
def NewFileOperationsHandler : FileOperationsHandler :=
  { listeners := [] }

/-- `RegisterListener`: `h.listeners = append(h.listeners, listener)`. -/
def FileOperationsHandler.RegisterListener (h : FileOperationsHandler)
    (listener : FileOperationsListener) : FileOperationsHandler :=
  { h with listeners := h.listeners ++ [listener] }

/-- The loop of `notifyListeners`: `for _, listener := range h.listeners`,
calling `listener.OnFileEvent(event)` on each in slice order. -/
def notifyLoop (event : FileEvent) : List FileOperationsListener → List Delivery
  | [] => []
  | listener :: rest => { listener := listener, event := event } :: notifyLoop event rest

/-- `notifyListeners`: sends an event to all registered listeners; returns the
handler (untouched) and the calls made. -/
def FileOperationsHandler.notifyListeners (h : FileOperationsHandler)
    (event : FileEvent) : FileOperationsHandler × List Delivery :=
  (h, notifyLoop event h.listeners)

/-- The loop `for i, file := range files { uris[i] = file.URI }` of `OnCreate`,
from index `i` on, over the remaining files. -/
def fillCreateURIs (i : Nat) (files : List FileCreate) (uris : List String) : List String :=
  match files with
  | [] => uris
  | file :: rest => fillCreateURIs (i + 1) rest (uris.set i file.URI)

/-- The loop `for i, file := range files { uris[i] = file.URI }` of `OnDelete`,
from index `i` on, over the remaining files. -/
def fillDeleteURIs (i : Nat) (files : List FileDelete) (uris : List String) : List String :=
  match files with
  | [] => uris
  | file :: rest => fillDeleteURIs (i + 1) rest (uris.set i file.URI)

/-- The loop `uris = append(uris, file.OldURI, file.NewURI)` of `OnRename`. -/
def appendRenameURIs (files : List FileRename) (uris : List String) : List String :=
  match files with
  | [] => uris
  | file :: rest => appendRenameURIs rest (uris ++ [file.OldURI, file.NewURI])

/-- `OnCreate`: handles file creation events. `make([]string, len(files))` is
a slice of `len(files)` empty strings. -/
def FileOperationsHandler.OnCreate (h : FileOperationsHandler)
    (files : List FileCreate) : FileOperationsHandler × List Delivery :=
  if files.length = 0 then (h, [])
  else
    let uris := fillCreateURIs 0 files (List.replicate files.length "")
    let event : FileEvent := { Kind := FileEventCreated, URIs := uris }
    h.notifyListeners event

/-- `OnRename`: handles file rename events. `make([]string, 0, len(files)*2)`
is an empty slice (the capacity is not observable). -/
def FileOperationsHandler.OnRename (h : FileOperationsHandler)
    (files : List FileRename) : FileOperationsHandler × List Delivery :=
  if files.length = 0 then (h, [])
  else
    let uris := appendRenameURIs files []
    let event : FileEvent := { Kind := FileEventRenamed, URIs := uris }
    h.notifyListeners event

/-- `OnDelete`: handles file deletion events. -/
def FileOperationsHandler.OnDelete (h : FileOperationsHandler)
    (files : List FileDelete) : FileOperationsHandler × List Delivery :=
  if files.length = 0 then (h, [])
  else
    let uris := fillDeleteURIs 0 files (List.replicate files.length "")
    let event : FileEvent := { Kind := FileEventDeleted, URIs := uris }
    h.notifyListeners event

/-- The URI list the specification prescribes for a rename event: alternating
old/new pairs, in input order. Written from the specification, to be compared
with `appendRenameURIs`. -/
def alternatingPairs : List FileRename → List String
  | [] => []
  | file :: rest => file.OldURI :: file.NewURI :: alternatingPairs rest

/-- A sequence of `RegisterListener` calls, in call order. -/
def registerAll (h : FileOperationsHandler) :
    List FileOperationsListener → FileOperationsHandler
  | [] => h
  | listener :: rest => registerAll (h.RegisterListener listener) rest

end fileops

/-- The search loop `for i, x := range xs { if x == target { ...; break } }`
shared by `UnregisterListener` and `Unregister`: the index of the first entry
identical to `target`, where the list is the part of the slice from index `i`
on. -/
def firstIndexOf {α : Type} [DecidableEq α] (target : α) : List α → Nat → Option Nat
  | [], _ => none
  | x :: rest, i => if x = target then some i else firstIndexOf target rest (i + 1)

namespace fileops

/-- `UnregisterListener`: at the first index `i` whose entry is identical to
`listener`, `h.listeners = append(h.listeners[:i], h.listeners[i+1:]...)`, then
`break`; nothing happens when no entry is identical. -/
def FileOperationsHandler.UnregisterListener (h : FileOperationsHandler)
    (listener : FileOperationsListener) : FileOperationsHandler :=
  match firstIndexOf listener h.listeners 0 with
  | some i => { h with listeners := h.listeners.take i ++ h.listeners.drop (i + 1) }
  | none => h

end fileops

namespace lsp

/-! ### notification_waiter.go -/

/-- Go `json.RawMessage`: the raw bytes of a message payload. -/
abbrev RawMessage := String

/-- `NotificationWaiter`. `Ready` is a `chan struct{}` made by the creator of
the waiter (a nil channel is not represented); it is modelled by the number of
`close(waiter.Ready)` calls that have completed on it: 0 is the open channel,
every other count a closed one. A `close` on a closed channel is the Go
run-time panic `close of closed channel`: it does not complete and the count
stays. `Result` is `none` for the nil `json.RawMessage`. -/
structure NotificationWaiter where
  URI : String
  Ready : Nat
  Result : Option RawMessage
  Received : Bool
  deriving DecidableEq, Repr

/-- A `*NotificationWaiter`: the address of a waiter. -/
abbrev WaiterRef := Nat

/-- `WaiterRegistry`: the slice of registered waiter pointers (the mutex is not
modelled; every method runs as one atomic step). -/
structure WaiterRegistry where
  waiters : List WaiterRef
  deriving DecidableEq, Repr

/-- The registry together with the waiters its pointers refer to: `waiters ref`
is the current content of the waiter at address `ref`, registered or not.
`panicked` tells that a call has stopped in a Go run-time panic; the source
has no `recover`, so no further call runs after it. -/
structure RegistryState where
  registry : WaiterRegistry
  waiters : WaiterRef → NotificationWaiter
  panicked : Bool

/-- `NewWaiterRegistry`: a registry with no waiter. -/
def NewWaiterRegistry : WaiterRegistry :=
  { waiters := [] }

/-- `Register`: `r.waiters = append(r.waiters, waiter)`. -/
def WaiterRegistry.Register (r : WaiterRegistry) (waiter : WaiterRef) : WaiterRegistry :=
  { r with waiters := r.waiters ++ [waiter] }

/-- `Unregister`: at the first index `i` with `w == waiter`,
`r.waiters = append(r.waiters[:i], r.waiters[i+1:]...)`, then `break`. -/
def WaiterRegistry.Unregister (r : WaiterRegistry) (waiter : WaiterRef) : WaiterRegistry :=
  match firstIndexOf waiter r.waiters 0 with
  | some i => { r with waiters := r.waiters.take i ++ r.waiters.drop (i + 1) }
  | none => r

/-- The values `encoding/json` stores into an `interface{}`: nil for JSON null,
`bool`, `float64` (kept as the text of the number), `string`, `[]interface{}`
and `map[string]interface{}` (the decoded map, one entry per key). -/
inductive JsonValue where
  | null
  | bool (b : Bool)
  | number (text : String)
  | string (s : String)
  | array (items : List JsonValue)
  | object (entries : List (String × JsonValue))

/-- `json.Unmarshal(params, &paramsMap)` for a nil `map[string]interface{}`,
given the result `parsed` of reading `params` as a JSON text (`none`: not valid
JSON). A JSON object fills the map; JSON null leaves the map nil (no entry)
without error; every other value, and invalid JSON, is an error (`none`). -/
def unmarshalParamsMap (parsed : Option JsonValue) : Option (List (String × JsonValue)) :=
  match parsed with
  | none => none
  | some JsonValue.null => some []
  | some (JsonValue.object entries) => some entries
  | some _ => none

/-- Go map indexing `paramsMap[key]` with the comma-ok form. -/
def jsonMapIndex (entries : List (String × JsonValue)) (key : String) : Option JsonValue :=
  match entries with
  | [] => none
  | (k, v) :: rest => if k = key then some v else jsonMapIndex rest key

/-- `paramsMap["uri"].(string)`: the string and `ok`; a missing key yields the
nil interface, on which the assertion fails like on any non-string value. -/
def uriOfParams (paramsMap : List (String × JsonValue)) : Option String :=
  match jsonMapIndex paramsMap "uri" with
  | some (JsonValue.string uri) => some uri
  | _ => none

/-- The loop `for _, waiter := range r.waiters` of `Notify`: a waiter with
`waiter.URI == uri && !waiter.Received` gets `Result = params`,
`Received = true` and then `close(waiter.Ready)`; the writes go through the
pointer, so a later entry for the same waiter sees them. On an open channel the
close completes and the loop goes on. On a channel that is already closed the
close panics: the two writes before it stay, the loop stops there and the later
entries are not reached. The result is the store of waiters and whether the loop
has panicked. -/
def notifyWaiters (uri : String) (params : RawMessage) :
    List WaiterRef → (WaiterRef → NotificationWaiter) →
      (WaiterRef → NotificationWaiter) × Bool
  | [], waiters => (waiters, false)
  | ref :: rest, waiters =>
    let waiter := waiters ref
    if waiter.URI = uri ∧ waiter.Received = false then
      if waiter.Ready = 0 then
        notifyWaiters uri params rest
          (Function.update waiters ref
            { waiter with Result := some params, Received := true, Ready := waiter.Ready + 1 })
      else
        (Function.update waiters ref { waiter with Result := some params, Received := true },
          true)
    else
      notifyWaiters uri params rest waiters

/-- `Notify`: notifies all matching waiters about a notification. `parse` is
the JSON reader of `encoding/json` (`none` on invalid JSON). The `method`
argument is not read. A panic of the loop leaves the function through the
deferred `RUnlock` and is recorded in `panicked`. -/
def RegistryState.Notify (parse : RawMessage → Option JsonValue) (st : RegistryState)
    (method : String) (params : RawMessage) : RegistryState :=
  match unmarshalParamsMap (parse params) with
  | none => st
  | some paramsMap =>
    match uriOfParams paramsMap with
    | none => st
    | some uri =>
      { st with
        waiters := (notifyWaiters uri params st.registry.waiters st.waiters).1
        panicked := st.panicked || (notifyWaiters uri params st.registry.waiters st.waiters).2 }

/-- `Register` on the registry of a state. -/
def RegistryState.Register (st : RegistryState) (waiter : WaiterRef) : RegistryState :=
  { st with registry := st.registry.Register waiter }

/-- `Unregister` on the registry of a state. -/
def RegistryState.Unregister (st : RegistryState) (waiter : WaiterRef) : RegistryState :=
  { st with registry := st.registry.Unregister waiter }

/-- One call on a `WaiterRegistry`. -/
inductive RegistryCall where
  | Register (waiter : WaiterRef)
  | Unregister (waiter : WaiterRef)
  | Notify (method : String) (params : RawMessage)

/-- The effect of one call; after a panic no call runs any more. -/
def RegistryState.call (parse : RawMessage → Option JsonValue) (st : RegistryState)
    (c : RegistryCall) : RegistryState :=
  if st.panicked then st
  else
    match c with
    | RegistryCall.Register waiter => st.Register waiter
    | RegistryCall.Unregister waiter => st.Unregister waiter
    | RegistryCall.Notify method params => st.Notify parse method params

/-- A sequence of calls, in order, up to the first panic. -/
def RegistryState.run (parse : RawMessage → Option JsonValue) (st : RegistryState) :
    List RegistryCall → RegistryState
  | [] => st
  | c :: rest => RegistryState.run parse (st.call parse c) rest

/-- The payload `{"uri":"file:///test2.go"}` of the registry tests. -/
def payloadTest2 : RawMessage := "\x7b\"uri\":\"file:///test2.go\"\x7d"

/-- The payload `{"uri":"file:///match.go","diagnostics":[]}` of the registry
tests. -/
def payloadMatch : RawMessage := "\x7b\"uri\":\"file:///match.go\",\"diagnostics\":[]\x7d"

/-- The payload `{"uri":7}`, whose `uri` is not a string. -/
def payloadNumericUri : RawMessage := "\x7b\"uri\":7\x7d"

/-- The payload `{"diagnostics":[]}`, which has no `uri`. -/
def payloadNoUri : RawMessage := "\x7b\"diagnostics\":[]\x7d"

/-- A JSON reader for the examples: it reads the payloads above, `[]` and
`null` as `encoding/json` does, and rejects every other input (such as
`invalid json`). -/
def sampleParse (params : RawMessage) : Option JsonValue :=
  if params = payloadTest2 then
    some (JsonValue.object [("uri", JsonValue.string "file:///test2.go")])
  else if params = payloadMatch then
    some (JsonValue.object
      [("uri", JsonValue.string "file:///match.go"), ("diagnostics", JsonValue.array [])])
  else if params = payloadNumericUri then
    some (JsonValue.object [("uri", JsonValue.number "7")])
  else if params = payloadNoUri then
    some (JsonValue.object [("diagnostics", JsonValue.array [])])
  else if params = "[]" then some (JsonValue.array [])
  else if params = "null" then some JsonValue.null
  else none

/-- A waiter as the callers create it: open `Ready` channel, nil `Result`,
`Received` false. -/
def freshWaiter (uri : String) : NotificationWaiter :=
  { URI := uri, Ready := 0, Result := none, Received := false }

/-! ### file_operations.go -/

/-- One call on the `FileOperationsHandler` interface (`OnCreate`, `OnRename`,
`OnDelete`) with its argument. -/
inductive HandlerCall where
  | OnCreate (files : List fileops.FileCreate)
  | OnRename (files : List fileops.FileRename)
  | OnDelete (files : List fileops.FileDelete)
  deriving DecidableEq, Repr

/-- `createFilesParams`. -/
structure createFilesParams where
  Files : List fileops.FileCreate
  deriving DecidableEq, Repr

/-- `renameFilesParams`. -/
structure renameFilesParams where
  Files : List fileops.FileRename
  deriving DecidableEq, Repr

/-- `deleteFilesParams`. -/
structure deleteFilesParams where
  Files : List fileops.FileDelete
  deriving DecidableEq, Repr

/-- `json.Unmarshal` of `encoding/json` at the three parameter struct types:
`some p` is a nil error with the decoded struct `p`, `none` is an error. -/
structure FileParamsUnmarshal where
  createFiles : RawMessage → Option createFilesParams
  renameFiles : RawMessage → Option renameFilesParams
  deleteFiles : RawMessage → Option deleteFilesParams

/-- The part of `Client` read by the file-operation handlers:
`fileOpsHandler`, an interface value that is nil (`none`) or holds a handler
(named by its address). -/
structure Client where
  fileOpsHandler : Option Nat
  deriving DecidableEq, Repr

/-- The Go `error` result: `none` is the nil error. -/
abbrev GoError := Option String

/-- `handleWillCreateFiles`: returns `(nil, nil)` on both paths; the second
component of the result lists the handler calls made (logging is not
modelled). -/
def Client.handleWillCreateFiles (json : FileParamsUnmarshal) (_c : Client)
    (params : RawMessage) : (Option JsonValue × GoError) × List HandlerCall :=
  match json.createFiles params with
  | none => ((none, none), [])
  | some _ => ((none, none), [])

/-- `handleDidCreateFiles`: on a decoding error returns nil; otherwise calls
`c.fileOpsHandler.OnCreate(createParams.Files)` if the handler is non-nil. -/
def Client.handleDidCreateFiles (json : FileParamsUnmarshal) (c : Client)
    (params : RawMessage) : GoError × List HandlerCall :=
  match json.createFiles params with
  | none => (none, [])
  | some createParams =>
    if c.fileOpsHandler.isSome then (none, [HandlerCall.OnCreate createParams.Files])
    else (none, [])

/-- `handleWillRenameFiles`: returns `(nil, nil)` on both paths. -/
def Client.handleWillRenameFiles (json : FileParamsUnmarshal) (_c : Client)
    (params : RawMessage) : (Option JsonValue × GoError) × List HandlerCall :=
  match json.renameFiles params with
  | none => ((none, none), [])
  | some _ => ((none, none), [])

/-- `handleDidRenameFiles`: on a decoding error returns nil; otherwise calls
`c.fileOpsHandler.OnRename(renameParams.Files)` if the handler is non-nil. -/
def Client.handleDidRenameFiles (json : FileParamsUnmarshal) (c : Client)
    (params : RawMessage) : GoError × List HandlerCall :=
  match json.renameFiles params with
  | none => (none, [])
  | some renameParams =>
    if c.fileOpsHandler.isSome then (none, [HandlerCall.OnRename renameParams.Files])
    else (none, [])

/-- `handleWillDeleteFiles`: returns `(nil, nil)` on both paths. -/
def Client.handleWillDeleteFiles (json : FileParamsUnmarshal) (_c : Client)
    (params : RawMessage) : (Option JsonValue × GoError) × List HandlerCall :=
  match json.deleteFiles params with
  | none => ((none, none), [])
  | some _ => ((none, none), [])

/-- `handleDidDeleteFiles`: on a decoding error returns nil; otherwise calls
`c.fileOpsHandler.OnDelete(deleteParams.Files)` if the handler is non-nil. -/
def Client.handleDidDeleteFiles (json : FileParamsUnmarshal) (c : Client)
    (params : RawMessage) : GoError × List HandlerCall :=
  match json.deleteFiles params with
  | none => (none, [])
  | some deleteParams =>
    if c.fileOpsHandler.isSome then (none, [HandlerCall.OnDelete deleteParams.Files])
    else (none, [])

/-- The payload `{"files":[{"uri":"file:///workspace/test.go"}]}` of the
handler tests. -/
def payloadCreateFiles : RawMessage :=
  "\x7b\"files\":[\x7b\"uri\":\"file:///workspace/test.go\"\x7d]\x7d"

/-- The payload
`{"files":[{"newUri":"file:///workspace/new.go","oldUri":"file:///workspace/old.go"}]}`
of the handler tests. -/
def payloadRenameFiles : RawMessage :=
  "\x7b\"files\":[\x7b\"newUri\":\"file:///workspace/new.go\",\"oldUri\":\"file:///workspace/old.go\"\x7d]\x7d"

/-- A decoder for the examples: it decodes the two payloads above as
`encoding/json` does (a field missing from an entry keeps its zero value, the
empty string) and rejects every other input (such as `invalid json`). -/
def sampleUnmarshal : FileParamsUnmarshal where
  createFiles := fun params =>
    if params = payloadCreateFiles then some ⟨[⟨"file:///workspace/test.go"⟩]⟩
    else if params = payloadRenameFiles then some ⟨[⟨""⟩]⟩
    else none
  renameFiles := fun params =>
    if params = payloadRenameFiles then
      some ⟨[⟨"file:///workspace/old.go", "file:///workspace/new.go"⟩]⟩
    else if params = payloadCreateFiles then some ⟨[⟨"", ""⟩]⟩
    else none
  deleteFiles := fun params =>
    if params = payloadCreateFiles then some ⟨[⟨"file:///workspace/test.go"⟩]⟩
    else if params = payloadRenameFiles then some ⟨[⟨""⟩]⟩
    else none

end lsp

namespace fileops

/-- One `lsp.HandlerCall` carried out on the `fileops.FileOperationsHandler`. -/
def FileOperationsHandler.handle (h : FileOperationsHandler) :
    lsp.HandlerCall → FileOperationsHandler × List Delivery
  | lsp.HandlerCall.OnCreate files => h.OnCreate files
  | lsp.HandlerCall.OnRename files => h.OnRename files
  | lsp.HandlerCall.OnDelete files => h.OnDelete files

/-- A sequence of `OnCreate` / `OnRename` / `OnDelete` calls on the handler, in
order, with all the deliveries made. -/
def FileOperationsHandler.handleAll (h : FileOperationsHandler) :
    List lsp.HandlerCall → FileOperationsHandler × List Delivery
  | [] => (h, [])
  | c :: rest =>
    let step := h.handle c
    let later := FileOperationsHandler.handleAll step.1 rest
    (later.1, step.2 ++ later.2)

end fileops

namespace watcher

/-- Modelled from the spec: the rename-detection debounce window, in
milliseconds (default 100ms); the watcher source is not part of the sources at
hand. -/
def debounceWindow : Nat := 100

/-- Modelled from the spec: `pendingFileEvent`, a pending delete with its URI
and arrival time (milliseconds). Its cancellable timer is armed exactly while
the entry is in the map and the window has not elapsed: cancelling the timer
and removing the entry happen together, and the expiry of the timer is the call
of `processDeleteTimeout`. -/
structure pendingFileEvent where
  uri : String
  timestamp : Nat
  deriving DecidableEq, Repr

/-- Modelled from the spec: the rename-detection state of `WorkspaceWatcher`,
the map `pendingEvents` from URI to pending delete (at most one entry per
URI). -/
structure WorkspaceWatcher where
  pendingEvents : List pendingFileEvent
  deriving DecidableEq, Repr

/-- Modelled from the spec: whether a pending delete is still armed at time
`now`, that is, still inside the debounce window. -/
def stillArmed (now : Nat) (e : pendingFileEvent) : Bool :=
  decide (now < e.timestamp + debounceWindow)

/-- Modelled from the spec: `trackDeleteEvent(uri)`: if no pending delete
exists for `uri`, create one stamped with the current time `now` (and arm its
timer); otherwise nothing. Emits no event. -/
def WorkspaceWatcher.trackDeleteEvent (w : WorkspaceWatcher) (uri : String) (now : Nat) :
    WorkspaceWatcher × List lsp.HandlerCall :=
  if w.pendingEvents.any (fun e => decide (e.uri = uri)) then (w, [])
  else ({ w with pendingEvents := w.pendingEvents ++ [{ uri := uri, timestamp := now }] }, [])

/-- Modelled from the spec: `checkForRename(newURI, handler)` at time `now`:
scan for any still-armed pending delete; if one exists, cancel its timer,
remove the entry, emit a single rename from the matched URI to `newURI` and
return true; otherwise return false and emit nothing. Which of several armed
entries the scan meets first is not specified (it is a map iteration): `pick`
selects it. -/
def WorkspaceWatcher.checkForRename (w : WorkspaceWatcher) (newURI : String) (now : Nat)
    (pick : Nat) : (WorkspaceWatcher × Bool) × List lsp.HandlerCall :=
  let armed := w.pendingEvents.filter (stillArmed now)
  match armed[pick % armed.length]? with
  | none => ((w, false), [])
  | some matched =>
    (({ w with pendingEvents := w.pendingEvents.filter (fun e => decide (e.uri ≠ matched.uri)) },
      true),
     [lsp.HandlerCall.OnRename [{ OldURI := matched.uri, NewURI := newURI }]])

/-- Modelled from the spec: `processDeleteTimeout(uri, handler)`: if the pending
delete for `uri` still exists when the timer fires, remove it and emit a delete
of `uri`; otherwise nothing. -/
def WorkspaceWatcher.processDeleteTimeout (w : WorkspaceWatcher) (uri : String) :
    WorkspaceWatcher × List lsp.HandlerCall :=
  if w.pendingEvents.any (fun e => decide (e.uri = uri)) then
    ({ w with pendingEvents := w.pendingEvents.filter (fun e => decide (e.uri ≠ uri)) },
     [lsp.HandlerCall.OnDelete [{ URI := uri }]])
  else (w, [])

/-- Modelled from the spec: one step of the rename-detection state machine: a
raw delete (`trackDeleteEvent`), a raw create (`checkForRename`, with the scan
order `pick`), or the expiry of a timer (`processDeleteTimeout`). -/
inductive WatcherStep where
  | trackDelete (uri : String) (now : Nat)
  | checkRename (newURI : String) (now : Nat) (pick : Nat)
  | deleteTimeout (uri : String)
  deriving DecidableEq, Repr

/-- A run of the state machine: the watcher, the events emitted so far (in
order), and the URIs for which a pending delete was created so far (in
order; a record kept for the statements, not read by the state machine). -/
structure WatcherRun where
  watcher : WorkspaceWatcher
  events : List lsp.HandlerCall
  created : List String
  deriving DecidableEq, Repr

/-- The run before any step: no pending delete, no event. -/
def WatcherRun.start : WatcherRun :=
  { watcher := { pendingEvents := [] }, events := [], created := [] }

/-- One step of a run. A `trackDelete` step creates a pending delete exactly
when none exists for the URI. -/
def WatcherRun.step (r : WatcherRun) : WatcherStep → WatcherRun
  | WatcherStep.trackDelete uri now =>
    { watcher := (r.watcher.trackDeleteEvent uri now).1,
      events := r.events ++ (r.watcher.trackDeleteEvent uri now).2,
      created :=
        if r.watcher.pendingEvents.any (fun e => decide (e.uri = uri)) then r.created
        else r.created ++ [uri] }
  | WatcherStep.checkRename newURI now pick =>
    { watcher := (r.watcher.checkForRename newURI now pick).1.1,
      events := r.events ++ (r.watcher.checkForRename newURI now pick).2,
      created := r.created }
  | WatcherStep.deleteTimeout uri =>
    { watcher := (r.watcher.processDeleteTimeout uri).1,
      events := r.events ++ (r.watcher.processDeleteTimeout uri).2,
      created := r.created }

/-- A sequence of steps, in order. -/
def WatcherRun.steps (r : WatcherRun) : List WatcherStep → WatcherRun
  | [] => r
  | s :: rest => WatcherRun.steps (r.step s) rest

/-- The number of rename pairs with old side `uri` carried by an event. -/
def renamesIn (uri : String) : lsp.HandlerCall → Nat
  | lsp.HandlerCall.OnRename files => files.countP (fun f => decide (f.OldURI = uri))
  | _ => 0

/-- The number of deletes of `uri` carried by an event. -/
def deletesIn (uri : String) : lsp.HandlerCall → Nat
  | lsp.HandlerCall.OnDelete files => files.countP (fun f => decide (f.URI = uri))
  | _ => 0

/-- The number of renames with old side `uri` among the events. -/
def renamesOf (uri : String) (events : List lsp.HandlerCall) : Nat :=
  (events.map (renamesIn uri)).sum

/-- The number of deletes of `uri` among the events. -/
def deletesOf (uri : String) (events : List lsp.HandlerCall) : Nat :=
  (events.map (deletesIn uri)).sum

/-- The number of `trackDelete` steps for `uri` in a sequence of steps. -/
def tracksOf (uri : String) (steps : List WatcherStep) : Nat :=
  steps.countP (fun s =>
    match s with
    | WatcherStep.trackDelete x _ => decide (x = uri)
    | _ => false)

/-- The number of pending deletes for `uri`. -/
def pendingOf (uri : String) (w : WorkspaceWatcher) : Nat :=
  w.pendingEvents.countP (fun e => decide (e.uri = uri))

end watcher

namespace fileops

/-- `FileEventType.String`: the string representation of a `FileEventType`. -/
def FileEventType.String (t : FileEventType) : String :=
  if t = FileEventCreated then "created"
  else if t = FileEventRenamed then "renamed"
  else if t = FileEventDeleted then "deleted"
  else "unknown"

end fileops

namespace tools

/-! ### semantic-tokens.go -/

/-- The modulus of `uint32` arithmetic. -/
def uint32Size : Nat := 4294967296

/-- The loop collecting the strings of a `[]interface{}`:
`if ts, ok := t.(string); ok { out = append(out, ts) }`. -/
def stringsOf : List lsp.JsonValue → List String
  | [] => []
  | lsp.JsonValue.string ts :: rest => ts :: stringsOf rest
  | _ :: rest => stringsOf rest

/-- The strings of `legend[key].([]interface{})`, or none when the assertion
fails. -/
def legendStrings (legend : List (String × lsp.JsonValue)) (key : String) : List String :=
  match lsp.jsonMapIndex legend key with
  | some (lsp.JsonValue.array items) => stringsOf items
  | _ => []

/-- The legend read from `caps.SemanticTokensProvider` (a decoded
`map[string]interface{}` with a `legend` object): `tokenTypes` and
`tokenModifiers`; both are empty when one of the assertions on the way
fails. -/
def extractLegend (provider : lsp.JsonValue) : List String × List String :=
  match provider with
  | lsp.JsonValue.object opts =>
    match lsp.jsonMapIndex opts "legend" with
    | some (lsp.JsonValue.object legend) =>
      (legendStrings legend "tokenTypes", legendStrings legend "tokenModifiers")
    | _ => ([], [])
  | _ => ([], [])

/-- The lines `fmt.Sprintf("  %d: %s\n", i, name)` written for a legend list,
from index `i` on. -/
def indexLines : List String → Nat → List String
  | [], _ => []
  | name :: rest, i => ("  " ++ toString i ++ ": " ++ name ++ "\n") :: indexLines rest (i + 1)

/-- The loop `for j := 0; j < len(tokenModifiers); j++` collecting the names of
the modifiers whose bit is set: `tokenMods&(1<<uint(j)) != 0`, in `uint32`
(a shift by 32 or more gives 0). The list is the part of `tokenModifiers` from
index `j` on. -/
def modifierNames (tokenMods : Nat) : List String → Nat → List String
  | [], _ => []
  | name :: rest, j =>
    if tokenMods &&& ((1 <<< j) % uint32Size) ≠ 0 then
      name :: modifierNames tokenMods rest (j + 1)
    else modifierNames tokenMods rest (j + 1)

/-- The name of a token type: `tokenTypes[tokenType]` if
`int(tokenType) < len(tokenTypes)`, else "unknown". -/
def tokenTypeName (tokenTypes : List String) (tokenType : Nat) : String :=
  if tokenType < tokenTypes.length then tokenTypes.getD tokenType "unknown" else "unknown"

/-- The modifier text of a token: the names joined by ", ", or "none". -/
def modifierText (tokenModifiers : List String) (tokenMods : Nat) : String :=
  if (modifierNames tokenMods tokenModifiers 0).length > 0 then
    ", ".intercalate (modifierNames tokenMods tokenModifiers 0)
  else "none"

/-- The token line
`fmt.Sprintf("  Line %d, Col %d, Len %d: %s [%s]\n", line, col, length, name, mods)`. -/
def tokenLineText (line col length : Nat) (name mods : String) : String :=
  "  Line " ++ toString line ++ ", Col " ++ toString col ++ ", Len " ++ toString length ++
    ": " ++ name ++ " [" ++ mods ++ "]\n"

/-- The decoding loop `for i := 0; i < len(tokens) && i/5 < 10; i += 5` of
`GetSemanticTokens`, from the state `(i, line, char)` on, with the token lines
it writes. The five reads `tokens[i] .. tokens[i+4]` are Go slice indexings: one
that is out of range is a run-time panic, returned as `Except.error`. `line`
and `char` are `uint32`. The result is `none` when `fuel` iterations were not
enough. -/
def decodeLoop (tokenTypes tokenModifiers : List String) (tokens : List Nat) :
    Nat → Nat → Nat → Nat → Option (Except String (List String))
  | 0, _, _, _ => none
  | fuel + 1, i, line, char =>
    if i < tokens.length ∧ i / 5 < 10 then
      match tokens[i]?, tokens[i + 1]?, tokens[i + 2]?, tokens[i + 3]?, tokens[i + 4]? with
      | some deltaLine, some deltaChar, some length, some tokenType, some tokenMods =>
        let line := (line + deltaLine) % uint32Size
        let char := if deltaLine > 0 then 0 else char
        let char := (char + deltaChar) % uint32Size
        let written := tokenLineText ((line + 1) % uint32Size) ((char + 1) % uint32Size) length
          (tokenTypeName tokenTypes tokenType) (modifierText tokenModifiers tokenMods)
        match decodeLoop tokenTypes tokenModifiers tokens fuel (i + 5) line char with
        | some (Except.ok rest) => some (Except.ok (written :: rest))
        | other => other
      | _, _, _, _, _ =>
        some (Except.error ("runtime error: index out of range [" ++ toString tokens.length ++
          "] with length " ++ toString tokens.length))
    else some (Except.ok [])

/-- The decoding loop started as in the source, at `i = 0`, `line = 0`,
`char = 0`, with more fuel than it has iterations. -/
def decodeTokens (tokenTypes tokenModifiers : List String) (tokens : List Nat) :
    Option (Except String (List String)) :=
  decodeLoop tokenTypes tokenModifiers tokens (tokens.length + 1) 0 0 0

/-- The trailer written when `len(tokens)/5 > 10`. -/
def tokenTrailer (tokens : List Nat) : List String :=
  if tokens.length / 5 > 10 then
    ["\n... and " ++ toString (tokens.length / 5 - 10) ++ " more tokens\n"]
  else []

/-- `GetSemanticTokens`, given the answers of the client to the three calls it
makes in this order: `openResult` for `client.OpenFile`, `tokensResult` for
`client.SemanticTokensFull` (the `Data` of the answer) and `caps` for
`client.GetCapabilities` (`none`: nil capabilities; `some provider`: the
`SemanticTokensProvider` field, itself nil or a decoded JSON value). The
outcome is the returned text and error, or `Except.error` for a run-time panic;
`none` stands for a decoding loop that ran out of fuel. The written pieces of
the `strings.Builder` are joined at the end. -/
def GetSemanticTokens (openResult : lsp.GoError) (tokensResult : Except String (List Nat))
    (caps : Option (Option lsp.JsonValue)) : Option (Except String (String × lsp.GoError)) :=
  match openResult with
  | some err => some (Except.ok ("", some ("could not open file: " ++ err)))
  | none =>
    match tokensResult with
    | Except.error err => some (Except.ok ("", some ("failed to get semantic tokens: " ++ err)))
    | Except.ok tokens =>
      match caps with
      | none => some (Except.ok ("", some "server does not support semantic tokens"))
      | some none => some (Except.ok ("", some "server does not support semantic tokens"))
      | some (some provider) =>
        let tokenTypes := (extractLegend provider).1
        let tokenModifiers := (extractLegend provider).2
        if tokenTypes.length = 0 then
          some (Except.ok ("", some "no token types found in server capabilities"))
        else if tokens.length = 0 then
          some (Except.ok ("No semantic tokens found in this file", none))
        else
          match decodeTokens tokenTypes tokenModifiers tokens with
          | none => none
          | some (Except.error panic) => some (Except.error panic)
          | some (Except.ok tokenLines) =>
            some (Except.ok (String.join
              (["Semantic Tokens (" ++ toString (tokens.length / 5) ++ " tokens):\n\n",
                "Token Types Available:\n"] ++ indexLines tokenTypes 0 ++
               ["\nToken Modifiers Available:\n"] ++ indexLines tokenModifiers 0 ++
               ["\nTokens (first 10):\n"] ++ tokenLines ++ tokenTrailer tokens), none))

/-- The `deltaLine` of token `k`: `tokens[5k]`. -/
def deltaLineOf (tokens : List Nat) (k : Nat) : Nat := tokens.getD (5 * k) 0

/-- The `deltaChar` of token `k`: `tokens[5k+1]`. -/
def deltaCharOf (tokens : List Nat) (k : Nat) : Nat := tokens.getD (5 * k + 1) 0

/-- The value of `line` when the loop reaches token `k`. -/
def lineBefore (tokens : List Nat) : Nat → Nat
  | 0 => 0
  | k + 1 => (lineBefore tokens k + deltaLineOf tokens k) % uint32Size

/-- The value of `char` when the loop reaches token `k`. -/
def charBefore (tokens : List Nat) : Nat → Nat
  | 0 => 0
  | k + 1 =>
    ((if deltaLineOf tokens k > 0 then 0 else charBefore tokens k) + deltaCharOf tokens k) %
      uint32Size

/-- The line the loop writes for token `k` of a well-formed array. -/
def tokenLineAt (tokenTypes tokenModifiers : List String) (tokens : List Nat) (k : Nat) :
    String :=
  tokenLineText ((lineBefore tokens (k + 1) + 1) % uint32Size)
    ((charBefore tokens (k + 1) + 1) % uint32Size) (tokens.getD (5 * k + 2) 0)
    (tokenTypeName tokenTypes (tokens.getD (5 * k + 3) 0))
    (modifierText tokenModifiers (tokens.getD (5 * k + 4) 0))

end tools

namespace tools

/-! ### type-hierarchy.go -/

/-- The Go conversion `uint32(x)` of an `int`. -/
def toUint32 (x : Int) : Nat := (x % 4294967296).toNat

/-- Modelled from the spec: the wire-schema struct `protocol.TypeHierarchyItem`
(package `internal/protocol`), restricted to the fields read by
`GetTypeHierarchy`; `StartLine` and `StartCharacter` are `Range.Start.Line` and
`Range.Start.Character` (`uint32`), `Kind` is the numeric symbol kind. -/
structure TypeHierarchyItem where
  Name : String
  Kind : Nat
  Detail : String
  URI : String
  StartLine : Nat
  StartCharacter : Nat
  deriving DecidableEq, Repr

/-- One call on the `lsp.Client` made by `GetTypeHierarchy`, with its
arguments. -/
inductive ClientCall where
  | OpenFile (filePath : String)
  | PrepareTypeHierarchy (uri : String) (line character : Nat)
  | Supertypes (item : TypeHierarchyItem)
  | Subtypes (item : TypeHierarchyItem)
  deriving DecidableEq, Repr

/-- Modelled from the spec: the methods of `lsp.Client` called by
`GetTypeHierarchy` (the client engine is not part of the sources at hand): each
takes the state of the client and its arguments and gives the next state and
the answer (`Except.error`: a non-nil error). -/
structure HierarchyClient (σ : Type) where
  OpenFile : σ → String → σ × lsp.GoError
  PrepareTypeHierarchy : σ → String → Nat → Nat → σ × Except String (List TypeHierarchyItem)
  Supertypes : σ → TypeHierarchyItem → σ × Except String (List TypeHierarchyItem)
  Subtypes : σ → TypeHierarchyItem → σ × Except String (List TypeHierarchyItem)

/-- The outcome of `GetTypeHierarchy`: the returned text and error, the state
of the client afterwards and the calls made on it, in order. -/
structure HierarchyOutcome (σ : Type) where
  text : String
  err : lsp.GoError
  client : σ
  calls : List ClientCall

/-- The lines written for a list of supertypes or subtypes:
`  - name (kind)` and, when there is one, `    Detail: detail`. -/
def relatedLines : List TypeHierarchyItem → String
  | [] => ""
  | t :: rest =>
    "  - " ++ t.Name ++ " (" ++ toString t.Kind ++ ")\n" ++
      (if t.Detail ≠ "" then "    Detail: " ++ t.Detail ++ "\n" else "") ++ relatedLines rest

/-- The block written for the answer to `Supertypes` or `Subtypes`: nothing on
an error (it is logged) or an empty list, else the title, the lines and an
empty line. -/
def relatedBlock (title : String) (answer : Except String (List TypeHierarchyItem)) : String :=
  match answer with
  | Except.error _ => ""
  | Except.ok related =>
    if related.length > 0 then title ++ relatedLines related ++ "\n" else ""

/-- The loop `for _, item := range items` of `GetTypeHierarchy`, threading the
text written so far, the client and the calls. -/
def hierarchyItems {σ : Type} (client : HierarchyClient σ) (direction : String) :
    List TypeHierarchyItem → String → σ → List ClientCall → String × σ × List ClientCall
  | [], result, st, calls => (result, st, calls)
  | item :: rest, result, st, calls =>
    let result := result ++ ("Type: " ++ item.Name ++ "\n")
    let result := result ++ ("Kind: " ++ toString item.Kind ++ "\n")
    let result := if item.Detail ≠ "" then result ++ ("Detail: " ++ item.Detail ++ "\n") else result
    let result := result ++ ("Location: " ++ item.URI ++ ":" ++
      toString ((item.StartLine + 1) % 4294967296) ++ ":" ++
      toString ((item.StartCharacter + 1) % 4294967296) ++ "\n\n")
    let afterSuper : String × σ × List ClientCall :=
      if direction = "supertypes" ∨ direction = "both" then
        (result ++ relatedBlock "Supertypes:\n" (client.Supertypes st item).2,
         (client.Supertypes st item).1, calls ++ [ClientCall.Supertypes item])
      else (result, st, calls)
    let afterSub : String × σ × List ClientCall :=
      if direction = "subtypes" ∨ direction = "both" then
        (afterSuper.1 ++ relatedBlock "Subtypes:\n" (client.Subtypes afterSuper.2.1 item).2,
         (client.Subtypes afterSuper.2.1 item).1, afterSuper.2.2 ++ [ClientCall.Subtypes item])
      else afterSuper
    hierarchyItems client direction rest afterSub.1 afterSub.2.1 afterSub.2.2

/-- `GetTypeHierarchy`: the direction is validated first; then the file is
opened, the type at the position is prepared and each item is written with its
supertypes and subtypes as requested. -/
def GetTypeHierarchy {σ : Type} (client : HierarchyClient σ) (st : σ) (filePath : String)
    (line column : Int) (direction : String) : HierarchyOutcome σ :=
  if direction ≠ "supertypes" ∧ direction ≠ "subtypes" ∧ direction ≠ "both" then
    { text := "", err := some "direction must be 'supertypes', 'subtypes', or 'both'",
      client := st, calls := [] }
  else
    match client.OpenFile st filePath with
    | (st1, some err) =>
      { text := "", err := some ("could not open file: " ++ err), client := st1,
        calls := [ClientCall.OpenFile filePath] }
    | (st1, none) =>
      match client.PrepareTypeHierarchy st1 ("file://" ++ filePath) (toUint32 (line - 1))
          (toUint32 (column - 1)) with
      | (st2, Except.error err) =>
        { text := "", err := some ("failed to prepare type hierarchy: " ++ err), client := st2,
          calls := [ClientCall.OpenFile filePath,
            ClientCall.PrepareTypeHierarchy ("file://" ++ filePath) (toUint32 (line - 1))
              (toUint32 (column - 1))] }
      | (st2, Except.ok items) =>
        if items.length = 0 then
          { text := "No type found at this position", err := none, client := st2,
            calls := [ClientCall.OpenFile filePath,
              ClientCall.PrepareTypeHierarchy ("file://" ++ filePath) (toUint32 (line - 1))
                (toUint32 (column - 1))] }
        else
          let done := hierarchyItems client direction items "" st2
            [ClientCall.OpenFile filePath,
              ClientCall.PrepareTypeHierarchy ("file://" ++ filePath) (toUint32 (line - 1))
                (toUint32 (column - 1))]
          { text := done.1, err := none, client := done.2.1, calls := done.2.2 }

/-- A client for the examples: no file can be opened, as with the empty
`lsp.Client` of the tests. -/
def closedClient : HierarchyClient Unit where
  OpenFile := fun st _ => (st, some "client not started")
  PrepareTypeHierarchy := fun st _ _ _ => (st, Except.error "client not started")
  Supertypes := fun st _ => (st, Except.error "client not started")
  Subtypes := fun st _ => (st, Except.error "client not started")

/-! ### inlay-hints.go -/

/-- A Go string as its bytes (numbers below 256): `len` counts bytes and
slicing cuts bytes. -/
abbrev Bytes := List Nat

/-- The bytes of a string literal (its UTF-8 encoding). -/
def bytesOf (s : String) : Bytes := s.toUTF8.data.toList.map (fun b => b.toNat)

/-- The truncation of the tooltip text:
`if len(tooltipText) > 100 { tooltipText = tooltipText[:97] + "..." }`. -/
def truncateTooltip (tooltipText : Bytes) : Bytes :=
  if tooltipText.length > 100 then tooltipText.take 97 ++ bytesOf "..." else tooltipText

/-- The tooltip block of `GetInlayHints` (lines 79 to 89): what is written
after the hint line for `hint.Tooltip`. `none` is the nil pointer; `some
rendered` is a tooltip whose value `fmt.Sprintf("%v", hint.Tooltip.Value)`
renders as `rendered`. Nothing is written for a nil tooltip, nor when the text
is empty or `<nil>`. -/
def tooltipSuffix (tooltip : Option Bytes) : Bytes :=
  match tooltip with
  | none => []
  | some rendered =>
    let tooltipText := truncateTooltip rendered
    if tooltipText ≠ [] ∧ tooltipText ≠ bytesOf "<nil>" then
      bytesOf " (tooltip: " ++ tooltipText ++ bytesOf ")"
    else []

/-- Modelled from the spec: the wire-schema struct `protocol.InlayHint`
(package `internal/protocol`), restricted to the fields read by
`GetInlayHints`: the position (`uint32`), the values of the label parts, the
kind, and the tooltip given by the `%v` rendering of its value. -/
structure InlayHint where
  Line : Nat
  Character : Nat
  Label : List Bytes
  Kind : Nat
  Tooltip : Option Bytes

/-- The text written for one hint by the loop of `GetInlayHints`. -/
def hintText (hint : InlayHint) : Bytes :=
  let line := (hint.Line + 1) % 4294967296
  let char := (hint.Character + 1) % 4294967296
  let labelText : Bytes := if hint.Label.length > 0 then hint.Label.flatten else []
  let kindStr := if hint.Kind = 1 then "type" else if hint.Kind = 2 then "parameter" else "hint"
  bytesOf ("Line " ++ toString line ++ ", Col " ++ toString char ++ " [" ++ kindStr ++ "]: ")
    ++ labelText ++ tooltipSuffix hint.Tooltip ++ bytesOf "\n"

/-- `GetInlayHints`, given the answers of the client to the two calls it makes:
`openResult` for `client.OpenFile` and `hintsResult` for `client.InlayHint`. -/
def GetInlayHints (openResult : lsp.GoError) (hintsResult : Except String (List InlayHint))
    (startLine endLine : Int) : Bytes × lsp.GoError :=
  match openResult with
  | some err => ([], some ("could not open file: " ++ err))
  | none =>
    match hintsResult with
    | Except.error err => ([], some ("failed to get inlay hints: " ++ err))
    | Except.ok hints =>
      if hints.length = 0 then
        (bytesOf ("No inlay hints found for lines " ++ toString startLine ++ "-" ++
          toString endLine), none)
      else
        (bytesOf ("Inlay Hints for lines " ++ toString startLine ++ "-" ++ toString endLine ++
            " (" ++ toString hints.length ++ " hints):\n\n") ++
          (hints.map hintText).flatten, none)

end tools

namespace lsp

/-! ### Request/response correlation of the transport -/

/-- Modelled from the spec: a Response message of the JSON-RPC envelope: the id
of the request it answers, and its result or its error. The transport source is
not part of the sources at hand. -/
structure ResponseMessage where
  id : Nat
  result : Option RawMessage
  error : Option String
  deriving DecidableEq, Repr

/-- Modelled from the spec: a `PendingCall`, which correlates one outgoing
request id to the blocked caller awaiting its result. -/
structure PendingCall where
  id : Nat
  caller : Nat
  deriving DecidableEq, Repr

/-- Modelled from the spec: the correlation state of the client: the next fresh
id, the pending calls, and, for the statements, the responses handed to callers
(caller and response, in the order of resolution) and the responses
discarded. -/
structure Transport where
  nextID : Nat
  pending : List PendingCall
  delivered : List (Nat × ResponseMessage)
  discarded : List ResponseMessage
  deriving DecidableEq, Repr

/-- Modelled from the spec: the sending half of `Call`: assign a fresh unique
id and register a `PendingCall` for the issuing caller (who then blocks). -/
def Transport.issue (t : Transport) (caller : Nat) : Transport :=
  { t with nextID := t.nextID + 1, pending := t.pending ++ [{ id := t.nextID, caller := caller }] }

/-- Modelled from the spec: the dispatch loop on a Response: resolve the
matching `PendingCall` (hand the response to its caller and remove it), or
discard the response if no pending call matches. -/
def Transport.dispatch (t : Transport) (msg : ResponseMessage) : Transport :=
  match t.pending.find? (fun p => decide (p.id = msg.id)) with
  | some call =>
    { t with pending := t.pending.filter (fun p => decide (p.id ≠ msg.id)),
             delivered := t.delivered ++ [(call.caller, msg)] }
  | none => { t with discarded := t.discarded ++ [msg] }

/-- Calls issued by the given callers, in order. -/
def Transport.issueAll (t : Transport) : List Nat → Transport
  | [] => t
  | caller :: rest => Transport.issueAll (t.issue caller) rest

/-- Responses arriving at the dispatch loop, in order of arrival. -/
def Transport.dispatchAll (t : Transport) : List ResponseMessage → Transport
  | [] => t
  | msg :: rest => Transport.dispatchAll (t.dispatch msg) rest

/-- The caller of the pending call with the given id (0 when there is none). -/
def callerOf (pending : List PendingCall) (id : Nat) : Nat :=
  match pending.find? (fun p => decide (p.id = id)) with
  | some call => call.caller
  | none => 0

end lsp

/-! ## Theorems -/

open lsp fileops

/-! ### Capability predicates -/

/-- The two-part test holds exactly when the wrapper pointer is non-nil and
its `Value` is a non-nil interface. -/
theorem orProviderSet_iff (p : Option OrProvider) :
    orProviderSet p = true ↔ ∃ w v, p = some w ∧ w.Value = some v := by
  cases p with
  | none => simp [orProviderSet]
  | some w =>
    cases hv : w.Value with
    | none => simp [orProviderSet, hv]
    | some v => simp [orProviderSet, hv]

/-- C1: for a nil capabilities document, each of the twenty capability
predicates of capabilities.go returns false. -/
theorem nil_capabilities_all_predicates_false :
    HasDefinitionSupport none = false ∧
    HasReferencesSupport none = false ∧
    HasHoverSupport none = false ∧
    HasDocumentSymbolSupport none = false ∧
    HasCallHierarchySupport none = false ∧
    HasWorkspaceSymbolSupport none = false ∧
    HasRenameSupport none = false ∧
    HasCodeActionSupport none = false ∧
    HasSignatureHelpSupport none = false ∧
    HasCodeLensSupport none = false ∧
    HasFoldingRangeSupport none = false ∧
    HasSelectionRangeSupport none = false ∧
    HasSemanticTokensSupport none = false ∧
    HasTypeHierarchySupport none = false ∧
    HasInlayHintSupport none = false ∧
    HasWorkspaceSymbolResolveSupport none = false ∧
    HasPrepareRenameSupport none = false ∧
    HasFormattingSupport none = false ∧
    HasRangeFormattingSupport none = false ∧
    HasOnTypeFormattingSupport none = false :=
  ⟨rfl, rfl, rfl, rfl, rfl, rfl, rfl, rfl, rfl, rfl,
   rfl, rfl, rfl, rfl, rfl, rfl, rfl, rfl, rfl, rfl⟩

/-- C2: for a non-nil capabilities document, each optional-wrapping-union
predicate is true exactly when its wrapper field is present and the wrapper
holds a present inner `Value`; with a present wrapper whose inner value is
absent the predicate is false. -/
theorem or_wrapper_predicates_iff (c : ServerCapabilities) :
    ((HasReferencesSupport (some c) = true ↔
        ∃ w v, c.ReferencesProvider = some w ∧ w.Value = some v) ∧
     (HasHoverSupport (some c) = true ↔
        ∃ w v, c.HoverProvider = some w ∧ w.Value = some v) ∧
     (HasDocumentSymbolSupport (some c) = true ↔
        ∃ w v, c.DocumentSymbolProvider = some w ∧ w.Value = some v) ∧
     (HasCallHierarchySupport (some c) = true ↔
        ∃ w v, c.CallHierarchyProvider = some w ∧ w.Value = some v) ∧
     (HasWorkspaceSymbolSupport (some c) = true ↔
        ∃ w v, c.WorkspaceSymbolProvider = some w ∧ w.Value = some v) ∧
     (HasFoldingRangeSupport (some c) = true ↔
        ∃ w v, c.FoldingRangeProvider = some w ∧ w.Value = some v) ∧
     (HasSelectionRangeSupport (some c) = true ↔
        ∃ w v, c.SelectionRangeProvider = some w ∧ w.Value = some v) ∧
     (HasTypeHierarchySupport (some c) = true ↔
        ∃ w v, c.TypeHierarchyProvider = some w ∧ w.Value = some v) ∧
     (HasFormattingSupport (some c) = true ↔
        ∃ w v, c.DocumentFormattingProvider = some w ∧ w.Value = some v) ∧
     (HasRangeFormattingSupport (some c) = true ↔
        ∃ w v, c.DocumentRangeFormattingProvider = some w ∧ w.Value = some v)) ∧
    (HasReferencesSupport
        (some { c with ReferencesProvider := some { Value := none } }) = false ∧
     HasHoverSupport
        (some { c with HoverProvider := some { Value := none } }) = false ∧
     HasDocumentSymbolSupport
        (some { c with DocumentSymbolProvider := some { Value := none } }) = false ∧
     HasCallHierarchySupport
        (some { c with CallHierarchyProvider := some { Value := none } }) = false ∧
     HasWorkspaceSymbolSupport
        (some { c with WorkspaceSymbolProvider := some { Value := none } }) = false ∧
     HasFoldingRangeSupport
        (some { c with FoldingRangeProvider := some { Value := none } }) = false ∧
     HasSelectionRangeSupport
        (some { c with SelectionRangeProvider := some { Value := none } }) = false ∧
     HasTypeHierarchySupport
        (some { c with TypeHierarchyProvider := some { Value := none } }) = false ∧
     HasFormattingSupport
        (some { c with DocumentFormattingProvider := some { Value := none } }) = false ∧
     HasRangeFormattingSupport
        (some { c with DocumentRangeFormattingProvider := some { Value := none } }) = false) :=
  ⟨⟨orProviderSet_iff _, orProviderSet_iff _, orProviderSet_iff _, orProviderSet_iff _,
    orProviderSet_iff _, orProviderSet_iff _, orProviderSet_iff _, orProviderSet_iff _,
    orProviderSet_iff _, orProviderSet_iff _⟩,
   ⟨rfl, rfl, rfl, rfl, rfl, rfl, rfl, rfl, rfl, rfl⟩⟩

/-- C3: for every capabilities document, nil or not, `HasDefinitionSupport`
is true exactly when the definition base feature is advertised
(`DefinitionProvider` present with a present inner `Value`) and
`HasWorkspaceSymbolSupport` is true; a document advertising definition whose
`WorkspaceSymbolProvider` is nil, or present with a nil `Value`, gets false. -/
theorem definition_support_iff (caps : Option ServerCapabilities) :
    (HasDefinitionSupport caps = true ↔
      (∃ c w v, caps = some c ∧ c.DefinitionProvider = some w ∧ w.Value = some v) ∧
        HasWorkspaceSymbolSupport caps = true) ∧
    (∀ (c : ServerCapabilities) (v : GoValue),
      HasDefinitionSupport
        (some { c with DefinitionProvider := some { Value := some v },
                       WorkspaceSymbolProvider := none }) = false ∧
      HasDefinitionSupport
        (some { c with DefinitionProvider := some { Value := some v },
                       WorkspaceSymbolProvider := some { Value := none } }) = false) := by
  refine ⟨?_, fun c v => ⟨rfl, rfl⟩⟩
  cases caps with
  | none => simp [HasDefinitionSupport, HasWorkspaceSymbolSupport]
  | some c =>
    simp only [HasDefinitionSupport, HasWorkspaceSymbolSupport, Bool.and_eq_true,
      orProviderSet_iff]
    constructor
    · rintro ⟨⟨w, v, hw, hv⟩, h2⟩
      exact ⟨⟨c, w, v, rfl, hw, hv⟩, h2⟩
    · rintro ⟨⟨c', w, v, hc, hw, hv⟩, h2⟩
      cases hc
      exact ⟨⟨w, v, hw, hv⟩, h2⟩

/-- C4: for a non-nil capabilities document, each plain-optional predicate is
true exactly when its provider field is present; setting the field to any
value at all (the boolean false included, or any options object) makes the
predicate true. -/
theorem plain_optional_predicates_iff (c : ServerCapabilities) :
    ((HasRenameSupport (some c) = true ↔ ∃ v, c.RenameProvider = some v) ∧
     (HasCodeActionSupport (some c) = true ↔ ∃ v, c.CodeActionProvider = some v) ∧
     (HasSignatureHelpSupport (some c) = true ↔ ∃ o, c.SignatureHelpProvider = some o) ∧
     (HasCodeLensSupport (some c) = true ↔ ∃ o, c.CodeLensProvider = some o) ∧
     (HasSemanticTokensSupport (some c) = true ↔ ∃ v, c.SemanticTokensProvider = some v) ∧
     (HasInlayHintSupport (some c) = true ↔ ∃ v, c.InlayHintProvider = some v) ∧
     (HasOnTypeFormattingSupport (some c) = true ↔
        ∃ o, c.DocumentOnTypeFormattingProvider = some o)) ∧
    ((∀ v : GoValue, HasRenameSupport (some { c with RenameProvider := some v }) = true) ∧
     (∀ v : GoValue,
        HasCodeActionSupport (some { c with CodeActionProvider := some v }) = true) ∧
     (∀ o : SignatureHelpOptions,
        HasSignatureHelpSupport (some { c with SignatureHelpProvider := some o }) = true) ∧
     (∀ o : CodeLensOptions,
        HasCodeLensSupport (some { c with CodeLensProvider := some o }) = true) ∧
     (∀ v : GoValue,
        HasSemanticTokensSupport (some { c with SemanticTokensProvider := some v }) = true) ∧
     (∀ v : GoValue,
        HasInlayHintSupport (some { c with InlayHintProvider := some v }) = true) ∧
     (∀ o : DocumentOnTypeFormattingOptions,
        HasOnTypeFormattingSupport
          (some { c with DocumentOnTypeFormattingProvider := some o }) = true)) ∧
    (HasRenameSupport (some { c with RenameProvider := some (GoValue.bool false) }) = true ∧
     HasCodeActionSupport
       (some { c with CodeActionProvider := some (GoValue.bool false) }) = true) := by
  refine ⟨⟨?_, ?_, ?_, ?_, ?_, ?_, ?_⟩,
    ⟨fun _ => rfl, fun _ => rfl, fun _ => rfl, fun _ => rfl, fun _ => rfl, fun _ => rfl,
      fun _ => rfl⟩, ⟨rfl, rfl⟩⟩ <;>
  simp [HasRenameSupport, HasCodeActionSupport, HasSignatureHelpSupport, HasCodeLensSupport,
    HasSemanticTokensSupport, HasInlayHintSupport, HasOnTypeFormattingSupport,
    Option.isSome_iff_exists]

/-- C5: when `WorkspaceSymbolProvider` is present with a present inner value:
if the value is a `WorkspaceSymbolOptions` object,
`HasWorkspaceSymbolResolveSupport` equals its `ResolveProvider`; if the value
is a plain boolean (true included), `HasWorkspaceSymbolResolveSupport` is false
while `HasWorkspaceSymbolSupport` is true. -/
theorem workspace_symbol_resolve_by_shape (c : ServerCapabilities) (w : OrProvider)
    (v : GoValue) (hw : c.WorkspaceSymbolProvider = some w) (hv : w.Value = some v) :
    (∀ o : WorkspaceSymbolOptions, v = GoValue.workspaceSymbolOptions o →
        HasWorkspaceSymbolResolveSupport (some c) = o.ResolveProvider) ∧
    (∀ b : Bool, v = GoValue.bool b →
        HasWorkspaceSymbolResolveSupport (some c) = false ∧
        HasWorkspaceSymbolSupport (some c) = true) := by
  constructor
  · intro o ho
    subst ho
    simp [HasWorkspaceSymbolResolveSupport, hw, hv]
  · intro b hb
    subst hb
    simp [HasWorkspaceSymbolResolveSupport, HasWorkspaceSymbolSupport, orProviderSet, hw, hv]

/-- C5 at concrete documents: options with `ResolveProvider` true, options with
`ResolveProvider` false, and the plain boolean true. -/
theorem workspace_symbol_resolve_by_shape_witness :
    HasWorkspaceSymbolResolveSupport
      (some { WorkspaceSymbolProvider := some { Value := some (GoValue.workspaceSymbolOptions { ResolveProvider := true }) } })
      = true ∧
    HasWorkspaceSymbolResolveSupport
      (some { WorkspaceSymbolProvider := some { Value := some (GoValue.workspaceSymbolOptions { ResolveProvider := false }) } })
      = false ∧
    (HasWorkspaceSymbolResolveSupport
      (some { WorkspaceSymbolProvider := some { Value := some (GoValue.bool true) } }) = false ∧
     HasWorkspaceSymbolSupport
      (some { WorkspaceSymbolProvider := some { Value := some (GoValue.bool true) } }) = true) :=
  ⟨(workspace_symbol_resolve_by_shape _ _ _ rfl rfl).1 { ResolveProvider := true } rfl,
   (workspace_symbol_resolve_by_shape _ _ _ rfl rfl).1 { ResolveProvider := false } rfl,
   (workspace_symbol_resolve_by_shape _ _ _ rfl rfl).2 true rfl⟩

/-- C6: when `RenameProvider` is present: if it is a detailed options object
(a decoded `map[string]interface{}`), `HasPrepareRenameSupport` equals the
boolean stored under `prepareProvider`, and is false when that key is missing
(or holds anything that is not a boolean); if it is a plain boolean (true
included), `HasPrepareRenameSupport` is false while `HasRenameSupport` is
true. -/
theorem prepare_rename_by_shape (c : ServerCapabilities) (v : GoValue)
    (hv : c.RenameProvider = some v) :
    (∀ opts : List (String × Option GoValue), v = GoValue.object opts →
        (∀ b : Bool, mapIndex opts "prepareProvider" = some (some (GoValue.bool b)) →
            HasPrepareRenameSupport (some c) = b) ∧
        (mapIndex opts "prepareProvider" = none →
            HasPrepareRenameSupport (some c) = false) ∧
        ((∀ b : Bool, mapIndex opts "prepareProvider" ≠ some (some (GoValue.bool b))) →
            HasPrepareRenameSupport (some c) = false)) ∧
    (∀ b : Bool, v = GoValue.bool b →
        HasPrepareRenameSupport (some c) = false ∧ HasRenameSupport (some c) = true) := by
  constructor
  · intro opts ho
    subst ho
    refine ⟨?_, ?_, ?_⟩
    · intro b hb
      simp [HasPrepareRenameSupport, hv, hb]
    · intro hb
      simp [HasPrepareRenameSupport, hv, hb]
    · intro hb
      simp only [HasPrepareRenameSupport, hv]
  · intro b hb
    subst hb
    simp [HasPrepareRenameSupport, HasRenameSupport, hv]

/-- C6 at concrete documents: `prepareProvider` true, `prepareProvider` false,
an options object without the key, and the plain boolean true. -/
theorem prepare_rename_by_shape_witness :
    HasPrepareRenameSupport
      (some { RenameProvider := some (GoValue.object [("prepareProvider", some (GoValue.bool true))]) }) = true ∧
    HasPrepareRenameSupport
      (some { RenameProvider := some (GoValue.object [("prepareProvider", some (GoValue.bool false))]) }) = false ∧
    HasPrepareRenameSupport
      (some { RenameProvider := some (GoValue.object [("workDoneProgress", some (GoValue.bool true))]) }) = false ∧
    (HasPrepareRenameSupport (some { RenameProvider := some (GoValue.bool true) }) = false ∧
     HasRenameSupport (some { RenameProvider := some (GoValue.bool true) }) = true) :=
  ⟨((prepare_rename_by_shape _ _ rfl).1 _ rfl).1 true (by simp [mapIndex]),
   ((prepare_rename_by_shape _ _ rfl).1 _ rfl).1 false (by simp [mapIndex]),
   ((prepare_rename_by_shape _ _ rfl).1 _ rfl).2.1 (by simp [mapIndex]),
   (prepare_rename_by_shape _ _ rfl).2 true rfl⟩

/-! ### File-operation fan-out -/

/-- The delivery loop calls each listener once, in slice order, with the event. -/
theorem notifyLoop_eq_map (event : FileEvent) (ls : List FileOperationsListener) :
    notifyLoop event ls = ls.map (fun l => { listener := l, event := event }) := by
  induction ls with
  | nil => rfl
  | cons l rest ih => simp [notifyLoop, ih]

/-- Writing index `i` and keeping the first `i + 1` cells extends the first
`i` cells by the written value. -/
theorem take_succ_set {α : Type} (l : List α) (i : Nat) (x : α) (hi : i < l.length) :
    (l.set i x).take (i + 1) = l.take i ++ [x] := by
  induction l generalizing i with
  | nil => simp at hi
  | cons a l ih =>
    cases i with
    | zero => simp
    | succ j =>
      have hj : j < l.length := by simpa using hi
      simp [ih j hj]

/-- The index-assignment loop of `OnCreate`, started at index `i` on a slice
with room for the remaining files, keeps the first `i` cells and writes the
remaining URIs after them. -/
theorem fillCreateURIs_spec (files : List FileCreate) (i : Nat) (uris : List String)
    (hlen : uris.length = i + files.length) :
    fillCreateURIs i files uris = uris.take i ++ files.map (fun f => f.URI) := by
  induction files generalizing i uris with
  | nil =>
    have : uris.length ≤ i := by simp at hlen; omega
    simp [fillCreateURIs, List.take_of_length_le this]
  | cons file rest ih =>
    have hi : i < uris.length := by simp at hlen; omega
    have hlen2 : (uris.set i file.URI).length = (i + 1) + rest.length := by
      simp at hlen ⊢; omega
    rw [fillCreateURIs, ih (i + 1) (uris.set i file.URI) hlen2, take_succ_set uris i file.URI hi]
    simp

/-- The index-assignment loop of `OnDelete`, as for `OnCreate`. -/
theorem fillDeleteURIs_spec (files : List FileDelete) (i : Nat) (uris : List String)
    (hlen : uris.length = i + files.length) :
    fillDeleteURIs i files uris = uris.take i ++ files.map (fun f => f.URI) := by
  induction files generalizing i uris with
  | nil =>
    have : uris.length ≤ i := by simp at hlen; omega
    simp [fillDeleteURIs, List.take_of_length_le this]
  | cons file rest ih =>
    have hi : i < uris.length := by simp at hlen; omega
    have hlen2 : (uris.set i file.URI).length = (i + 1) + rest.length := by
      simp at hlen ⊢; omega
    rw [fillDeleteURIs, ih (i + 1) (uris.set i file.URI) hlen2, take_succ_set uris i file.URI hi]
    simp

/-- The append loop of `OnRename` extends the slice by the alternating pairs. -/
theorem appendRenameURIs_spec (files : List FileRename) (uris : List String) :
    appendRenameURIs files uris = uris ++ alternatingPairs files := by
  induction files generalizing uris with
  | nil => simp [appendRenameURIs, alternatingPairs]
  | cons file rest ih => simp [appendRenameURIs, alternatingPairs, ih]

/-- The alternating pairs of `n` renames are `2 * n` URIs. -/
theorem alternatingPairs_length (files : List FileRename) :
    (alternatingPairs files).length = 2 * files.length := by
  induction files with
  | nil => rfl
  | cons file rest ih => simp [alternatingPairs, ih]; omega

/-- Positions `2 * i` and `2 * i + 1` of the alternating pairs hold the old and
the new URI of rename `i`. -/
theorem alternatingPairs_getElem? (files : List FileRename) (i : Nat) (hi : i < files.length) :
    (alternatingPairs files)[2 * i]? = some (files[i]).OldURI ∧
    (alternatingPairs files)[2 * i + 1]? = some (files[i]).NewURI := by
  induction files generalizing i with
  | nil => simp at hi
  | cons file rest ih =>
    cases i with
    | zero => simp [alternatingPairs]
    | succ j =>
      have hj : j < rest.length := by simpa using hi
      have e1 : 2 * (j + 1) = (2 * j) + 1 + 1 := by omega
      have e2 : 2 * (j + 1) + 1 = (2 * j + 1) + 1 + 1 := by omega
      obtain ⟨h1, h2⟩ := ih j hj
      constructor
      · rw [e1]; simpa [alternatingPairs] using h1
      · rw [e2]; simpa [alternatingPairs] using h2

/-- On a non-empty input `OnCreate` fans out the one event of kind Created
carrying the input URIs in order. -/
theorem OnCreate_nonempty (h : FileOperationsHandler) (files : List FileCreate)
    (hne : files ≠ []) :
    h.OnCreate files =
      (h, h.listeners.map (fun l =>
        { listener := l,
          event := { Kind := FileEventCreated, URIs := files.map (fun f => f.URI) } })) := by
  have hlen : files.length ≠ 0 := by
    intro h0; exact hne (List.length_eq_zero.mp h0)
  simp [FileOperationsHandler.OnCreate, hlen, FileOperationsHandler.notifyListeners,
    notifyLoop_eq_map, fillCreateURIs_spec files 0 (List.replicate files.length "") (by simp)]

/-- On a non-empty input `OnDelete` fans out the one event of kind Deleted
carrying the input URIs in order. -/
theorem OnDelete_nonempty (h : FileOperationsHandler) (files : List FileDelete)
    (hne : files ≠ []) :
    h.OnDelete files =
      (h, h.listeners.map (fun l =>
        { listener := l,
          event := { Kind := FileEventDeleted, URIs := files.map (fun f => f.URI) } })) := by
  have hlen : files.length ≠ 0 := by
    intro h0; exact hne (List.length_eq_zero.mp h0)
  simp [FileOperationsHandler.OnDelete, hlen, FileOperationsHandler.notifyListeners,
    notifyLoop_eq_map, fillDeleteURIs_spec files 0 (List.replicate files.length "") (by simp)]

/-- On a non-empty input `OnRename` fans out the one event of kind Renamed
carrying the alternating old/new pairs. -/
theorem OnRename_nonempty (h : FileOperationsHandler) (files : List FileRename)
    (hne : files ≠ []) :
    h.OnRename files =
      (h, h.listeners.map (fun l =>
        { listener := l,
          event := { Kind := FileEventRenamed, URIs := alternatingPairs files } })) := by
  have hlen : files.length ≠ 0 := by
    intro h0; exact hne (List.length_eq_zero.mp h0)
  simp [FileOperationsHandler.OnRename, hlen, FileOperationsHandler.notifyListeners,
    notifyLoop_eq_map, appendRenameURIs_spec]

/-- Registering a sequence of listeners appends them, in call order, to the
listeners already registered. -/
theorem registerAll_listeners (h : FileOperationsHandler) (regs : List FileOperationsListener) :
    (registerAll h regs).listeners = h.listeners ++ regs := by
  induction regs generalizing h with
  | nil => simp [registerAll]
  | cons l rest ih => simp [registerAll, ih, FileOperationsHandler.RegisterListener]

/-- C7: for every handler state, `OnCreate`, `OnRename` and `OnDelete` called
with an empty list make no call on any listener and return the handler
unchanged. -/
theorem on_empty_input_no_delivery (h : FileOperationsHandler) :
    h.OnCreate [] = (h, []) ∧ h.OnRename [] = (h, []) ∧ h.OnDelete [] = (h, []) :=
  ⟨rfl, rfl, rfl⟩

/-- C8: for a non-empty input, `OnCreate` (respectively `OnDelete`) builds one
event of kind Created (respectively Deleted) whose URI list has the length of
the input and holds the input URIs in input order, hands exactly that event to
`notifyListeners`, and every registered listener receives it (one call per
registered entry, in order). -/
theorem on_create_delete_flat_event (h : FileOperationsHandler)
    (creates : List FileCreate) (deletes : List FileDelete)
    (hc : creates ≠ []) (hd : deletes ≠ []) :
    (∃ ev : FileEvent,
        ev.Kind = FileEventCreated ∧
        ev.URIs = creates.map (fun f => f.URI) ∧
        ev.URIs.length = creates.length ∧
        (∀ (i : Nat) (hi : i < creates.length), ev.URIs[i]? = some (creates[i]).URI) ∧
        h.OnCreate creates = h.notifyListeners ev ∧
        (h.OnCreate creates).1 = h ∧
        (h.OnCreate creates).2 = h.listeners.map (fun l => { listener := l, event := ev }) ∧
        (∀ l ∈ h.listeners, { listener := l, event := ev } ∈ (h.OnCreate creates).2)) ∧
    (∃ ev : FileEvent,
        ev.Kind = FileEventDeleted ∧
        ev.URIs = deletes.map (fun f => f.URI) ∧
        ev.URIs.length = deletes.length ∧
        (∀ (i : Nat) (hi : i < deletes.length), ev.URIs[i]? = some (deletes[i]).URI) ∧
        h.OnDelete deletes = h.notifyListeners ev ∧
        (h.OnDelete deletes).1 = h ∧
        (h.OnDelete deletes).2 = h.listeners.map (fun l => { listener := l, event := ev }) ∧
        (∀ l ∈ h.listeners, { listener := l, event := ev } ∈ (h.OnDelete deletes).2)) := by
  constructor
  · refine ⟨{ Kind := FileEventCreated, URIs := creates.map (fun f => f.URI) },
      rfl, rfl, by simp, ?_, ?_, ?_, ?_, ?_⟩
    · intro i hi
      simp [hi]
    · rw [OnCreate_nonempty h creates hc]
      simp [FileOperationsHandler.notifyListeners, notifyLoop_eq_map]
    · rw [OnCreate_nonempty h creates hc]
    · rw [OnCreate_nonempty h creates hc]
    · intro l hl
      rw [OnCreate_nonempty h creates hc]
      exact List.mem_map.mpr ⟨l, hl, rfl⟩
  · refine ⟨{ Kind := FileEventDeleted, URIs := deletes.map (fun f => f.URI) },
      rfl, rfl, by simp, ?_, ?_, ?_, ?_, ?_⟩
    · intro i hi
      simp [hi]
    · rw [OnDelete_nonempty h deletes hd]
      simp [FileOperationsHandler.notifyListeners, notifyLoop_eq_map]
    · rw [OnDelete_nonempty h deletes hd]
    · rw [OnDelete_nonempty h deletes hd]
    · intro l hl
      rw [OnDelete_nonempty h deletes hd]
      exact List.mem_map.mpr ⟨l, hl, rfl⟩

/-- C8 on the handler with listeners 1 and 2: two created files and one deleted
file. -/
theorem on_create_delete_flat_event_witness :
    ([⟨"file:///workspace/test.go"⟩, ⟨"file:///workspace/test2.go"⟩] : List FileCreate) ≠ [] ∧
    ([⟨"file:///workspace/test.go"⟩] : List FileDelete) ≠ [] ∧
    (FileOperationsHandler.OnCreate ⟨[⟨1⟩, ⟨2⟩]⟩
        [⟨"file:///workspace/test.go"⟩, ⟨"file:///workspace/test2.go"⟩]).2 =
      [⟨⟨1⟩, ⟨FileEventCreated, ["file:///workspace/test.go", "file:///workspace/test2.go"]⟩⟩,
       ⟨⟨2⟩, ⟨FileEventCreated, ["file:///workspace/test.go", "file:///workspace/test2.go"]⟩⟩] ∧
    (FileOperationsHandler.OnDelete ⟨[⟨1⟩, ⟨2⟩]⟩ [⟨"file:///workspace/test.go"⟩]).2 =
      [⟨⟨1⟩, ⟨FileEventDeleted, ["file:///workspace/test.go"]⟩⟩,
       ⟨⟨2⟩, ⟨FileEventDeleted, ["file:///workspace/test.go"]⟩⟩] := by
  obtain ⟨⟨ev, hk, hu, -, -, -, -, hds, -⟩, ⟨ev2, hk2, hu2, -, -, -, -, hds2, -⟩⟩ :=
    on_create_delete_flat_event ⟨[⟨1⟩, ⟨2⟩]⟩
      [⟨"file:///workspace/test.go"⟩, ⟨"file:///workspace/test2.go"⟩]
      [⟨"file:///workspace/test.go"⟩] (by simp) (by simp)
  refine ⟨by simp, by simp, ?_, ?_⟩
  · rw [hds]
    cases ev
    simp only at hk hu
    subst hk hu
    rfl
  · rw [hds2]
    cases ev2
    simp only at hk2 hu2
    subst hk2 hu2
    rfl

/-- C9: for a non-empty list of `n` renames, `OnRename` builds one event of
kind Renamed whose URI list has length `2 * n`, with the old URI of rename `i`
at position `2 * i` and its new URI at position `2 * i + 1`, and hands exactly
that event to `notifyListeners`. -/
theorem on_rename_alternating_event (h : FileOperationsHandler) (files : List FileRename)
    (hne : files ≠ []) :
    ∃ ev : FileEvent,
      ev.Kind = FileEventRenamed ∧
      ev.URIs.length = 2 * files.length ∧
      (∀ (i : Nat) (hi : i < files.length),
        ev.URIs[2 * i]? = some (files[i]).OldURI ∧
        ev.URIs[2 * i + 1]? = some (files[i]).NewURI) ∧
      h.OnRename files = h.notifyListeners ev ∧
      (h.OnRename files).1 = h ∧
      (h.OnRename files).2 = h.listeners.map (fun l => { listener := l, event := ev }) := by
  refine ⟨{ Kind := FileEventRenamed, URIs := alternatingPairs files },
    rfl, alternatingPairs_length files, ?_, ?_, ?_, ?_⟩
  · intro i hi
    exact alternatingPairs_getElem? files i hi
  · rw [OnRename_nonempty h files hne]
    simp [FileOperationsHandler.notifyListeners, notifyLoop_eq_map]
  · rw [OnRename_nonempty h files hne]
  · rw [OnRename_nonempty h files hne]

/-- C9 on two renames delivered to one listener. -/
theorem on_rename_alternating_event_witness :
    ([⟨"file:///workspace/a.go", "file:///workspace/a-renamed.go"⟩,
      ⟨"file:///workspace/b.go", "file:///workspace/b-renamed.go"⟩] : List FileRename) ≠ [] ∧
    ∃ ev : FileEvent,
      (FileOperationsHandler.OnRename ⟨[⟨1⟩]⟩
        [⟨"file:///workspace/a.go", "file:///workspace/a-renamed.go"⟩,
         ⟨"file:///workspace/b.go", "file:///workspace/b-renamed.go"⟩]).2 = [⟨⟨1⟩, ev⟩] ∧
      ev.Kind = FileEventRenamed ∧
      ev.URIs.length = 4 ∧
      ev.URIs[0]? = some "file:///workspace/a.go" ∧
      ev.URIs[1]? = some "file:///workspace/a-renamed.go" ∧
      ev.URIs[2]? = some "file:///workspace/b.go" ∧
      ev.URIs[3]? = some "file:///workspace/b-renamed.go" := by
  obtain ⟨ev, hk, hlen, hidx, -, -, hds⟩ :=
    on_rename_alternating_event ⟨[⟨1⟩]⟩
      [⟨"file:///workspace/a.go", "file:///workspace/a-renamed.go"⟩,
       ⟨"file:///workspace/b.go", "file:///workspace/b-renamed.go"⟩] (by simp)
  refine ⟨by simp, ev, ?_, hk, ?_, ?_, ?_, ?_, ?_⟩
  · rw [hds]; rfl
  · simpa using hlen
  · simpa using (hidx 0 (by simp)).1
  · simpa using (hidx 0 (by simp)).2
  · simpa using (hidx 1 (by simp)).1
  · simpa using (hidx 1 (by simp)).2

/-- C10: after any sequence `regs` of `RegisterListener` calls on a new
handler, the deliveries `ds` of `OnCreate`, `OnRename` or `OnDelete` on a
non-empty input invoke the listeners in exactly the order of registration,
once per registration entry, all with one and the same event: a listener
registered `k` times receives that event `k` times. -/
theorem delivery_once_per_registration (regs : List FileOperationsListener)
    (creates : List FileCreate) (renames : List FileRename) (deletes : List FileDelete)
    (hc : creates ≠ []) (hr : renames ≠ []) (hd : deletes ≠ [])
    (ds : List Delivery)
    (hds : ds = ((registerAll NewFileOperationsHandler regs).OnCreate creates).2 ∨
           ds = ((registerAll NewFileOperationsHandler regs).OnRename renames).2 ∨
           ds = ((registerAll NewFileOperationsHandler regs).OnDelete deletes).2) :
    ds.map (fun d => d.listener) = regs ∧
    ∃ ev : FileEvent,
      ds = regs.map (fun l => { listener := l, event := ev }) ∧
      (∀ d ∈ ds, d.event = ev) ∧
      (∀ l : FileOperationsListener,
        ds.count { listener := l, event := ev } = regs.count l ∧
        (ds.filter (fun d => decide (d.listener = l))).length = regs.count l) := by
  have hregs : (registerAll NewFileOperationsHandler regs).listeners = regs := by
    simp [registerAll_listeners, NewFileOperationsHandler]
  have key : ∃ ev : FileEvent, ds = regs.map (fun l => { listener := l, event := ev }) := by
    rcases hds with h1 | h1 | h1
    · exact ⟨_, by rw [h1, OnCreate_nonempty _ creates hc, hregs]⟩
    · exact ⟨_, by rw [h1, OnRename_nonempty _ renames hr, hregs]⟩
    · exact ⟨_, by rw [h1, OnDelete_nonempty _ deletes hd, hregs]⟩
  obtain ⟨ev, hev⟩ := key
  subst hev
  refine ⟨by simp [Function.comp_def], ev, rfl, ?_, ?_⟩
  · intro d hd'
    obtain ⟨l, -, rfl⟩ := List.mem_map.mp hd'
    rfl
  · intro l
    have hinj : Function.Injective
        (fun l : FileOperationsListener => ({ listener := l, event := ev } : Delivery)) := by
      intro a b hab
      exact congrArg Delivery.listener hab
    constructor
    · exact List.count_map_of_injective regs _ hinj l
    · rw [List.filter_map, List.length_map, List.count, List.countP_eq_length_filter]
      congr 1

/-- C10 with listener 7 registered twice around listener 8: the created-file
event reaches 7, 8, 7 in that order, listener 7 twice. -/
theorem delivery_once_per_registration_witness :
    ([⟨"file:///workspace/test.go"⟩] : List FileCreate) ≠ [] ∧
    ([⟨"file:///workspace/old.go", "file:///workspace/new.go"⟩] : List FileRename) ≠ [] ∧
    ([⟨"file:///workspace/test.go"⟩] : List FileDelete) ≠ [] ∧
    (((registerAll NewFileOperationsHandler [⟨7⟩, ⟨8⟩, ⟨7⟩]).OnCreate
        [⟨"file:///workspace/test.go"⟩]).2.map (fun d => d.listener) = [⟨7⟩, ⟨8⟩, ⟨7⟩] ∧
     ∃ ev : FileEvent,
      ((registerAll NewFileOperationsHandler [⟨7⟩, ⟨8⟩, ⟨7⟩]).OnCreate
        [⟨"file:///workspace/test.go"⟩]).2 = [⟨⟨7⟩, ev⟩, ⟨⟨8⟩, ev⟩, ⟨⟨7⟩, ev⟩]) := by
  obtain ⟨horder, ev, hmap, -, -⟩ :=
    delivery_once_per_registration [⟨7⟩, ⟨8⟩, ⟨7⟩]
      [⟨"file:///workspace/test.go"⟩]
      [⟨"file:///workspace/old.go", "file:///workspace/new.go"⟩]
      [⟨"file:///workspace/test.go"⟩] (by simp) (by simp) (by simp) _ (Or.inl rfl)
  exact ⟨by simp, by simp, by simp, horder, ev, hmap⟩

/-! ### Unregistering -/

/-- The search loop finds nothing exactly when no entry is identical to the
target; otherwise it returns the offset `k + i` of the first such entry, and
cutting index `i` out of the list erases that first entry. -/
theorem firstIndexOf_spec {α : Type} [DecidableEq α] (target : α) (l : List α) (k : Nat) :
    (firstIndexOf target l k = none ∧ target ∉ l) ∨
    (∃ i, firstIndexOf target l k = some (k + i) ∧ target ∈ l ∧
      l.take i ++ l.drop (i + 1) = l.erase target) := by
  induction l generalizing k with
  | nil => left; simp [firstIndexOf]
  | cons x rest ih =>
    by_cases hx : x = target
    · right
      refine ⟨0, ?_, ?_, ?_⟩
      · simp [firstIndexOf, hx]
      · simp [hx]
      · simp [hx]
    · rcases ih (k + 1) with ⟨hnone, hmem⟩ | ⟨i, hsome, hmem, herase⟩
      · left
        refine ⟨by simp [firstIndexOf, hx, hnone], ?_⟩
        simp [hmem, Ne.symm hx]
      · right
        refine ⟨i + 1, ?_, ?_, ?_⟩
        · simp [firstIndexOf, hx, hsome]; omega
        · simp [hmem]
        · have hbeq : (x == target) = false := by simpa using hx
          simp [List.erase_cons, hbeq, herase]

/-- Cutting out the first identical entry, as `UnregisterListener` and
`Unregister` do, is `List.erase`. -/
theorem cut_firstIndexOf_eq_erase {α : Type} [DecidableEq α] (target : α) (l : List α) :
    (match firstIndexOf target l 0 with
      | some i => l.take i ++ l.drop (i + 1)
      | none => l) = l.erase target := by
  rcases firstIndexOf_spec target l 0 with ⟨hnone, hmem⟩ | ⟨i, hsome, -, herase⟩
  · rw [hnone]
    exact (List.erase_of_not_mem hmem).symm
  · rw [hsome]
    simpa using herase

/-- `UnregisterListener` erases the first entry identical to the listener. -/
theorem UnregisterListener_listeners (h : FileOperationsHandler) (l : FileOperationsListener) :
    (h.UnregisterListener l).listeners = h.listeners.erase l := by
  have key := cut_firstIndexOf_eq_erase l h.listeners
  unfold FileOperationsHandler.UnregisterListener
  cases hidx : firstIndexOf l h.listeners 0 with
  | none => rw [hidx] at key; simpa using key
  | some i => rw [hidx] at key; simpa using key

/-- `Unregister` erases the first entry identical to the waiter. -/
theorem Unregister_waiters (r : WaiterRegistry) (w : WaiterRef) :
    (r.Unregister w).waiters = r.waiters.erase w := by
  have key := cut_firstIndexOf_eq_erase w r.waiters
  unfold WaiterRegistry.Unregister
  cases hidx : firstIndexOf w r.waiters 0 with
  | none => rw [hidx] at key; simpa using key
  | some i => rw [hidx] at key; simpa using key

/-- An `OnCreate` / `OnRename` / `OnDelete` call leaves the handler as it is and
calls registered listeners only. -/
theorem handle_spec (h : FileOperationsHandler) (c : HandlerCall) :
    (h.handle c).1 = h ∧ ∀ d ∈ (h.handle c).2, d.listener ∈ h.listeners := by
  cases c with
  | OnCreate files =>
    by_cases hne : files = []
    · subst hne; simp [FileOperationsHandler.handle, FileOperationsHandler.OnCreate]
    · simp only [FileOperationsHandler.handle, OnCreate_nonempty h files hne]
      refine ⟨trivial, ?_⟩
      intro d hd
      obtain ⟨l, hl, rfl⟩ := List.mem_map.mp hd
      exact hl
  | OnRename files =>
    by_cases hne : files = []
    · subst hne; simp [FileOperationsHandler.handle, FileOperationsHandler.OnRename]
    · simp only [FileOperationsHandler.handle, OnRename_nonempty h files hne]
      refine ⟨trivial, ?_⟩
      intro d hd
      obtain ⟨l, hl, rfl⟩ := List.mem_map.mp hd
      exact hl
  | OnDelete files =>
    by_cases hne : files = []
    · subst hne; simp [FileOperationsHandler.handle, FileOperationsHandler.OnDelete]
    · simp only [FileOperationsHandler.handle, OnDelete_nonempty h files hne]
      refine ⟨trivial, ?_⟩
      intro d hd
      obtain ⟨l, hl, rfl⟩ := List.mem_map.mp hd
      exact hl

/-- A sequence of `OnCreate` / `OnRename` / `OnDelete` calls leaves the handler
as it is and calls registered listeners only. -/
theorem handleAll_spec (h : FileOperationsHandler) (calls : List HandlerCall) :
    (h.handleAll calls).1 = h ∧ ∀ d ∈ (h.handleAll calls).2, d.listener ∈ h.listeners := by
  induction calls with
  | nil => simp [FileOperationsHandler.handleAll]
  | cons c rest ih =>
    obtain ⟨h1, h2⟩ := handle_spec h c
    simp only [FileOperationsHandler.handleAll, h1]
    refine ⟨ih.1, ?_⟩
    intro d hd
    rcases List.mem_append.mp hd with hd | hd
    · exact h2 d hd
    · exact ih.2 d hd

/-- `UnregisterListener` as a whole: the handler with the first identical entry
erased. -/
theorem UnregisterListener_eq (h : FileOperationsHandler) (l : FileOperationsListener) :
    h.UnregisterListener l = { listeners := h.listeners.erase l } := by
  have key := UnregisterListener_listeners h l
  cases hres : h.UnregisterListener l with
  | mk ls => rw [hres] at key; simpa using key

/-- `Unregister` as a whole: the registry with the first identical entry
erased. -/
theorem Unregister_eq (r : WaiterRegistry) (w : WaiterRef) :
    r.Unregister w = { waiters := r.waiters.erase w } := by
  have key := Unregister_waiters r w
  cases hres : r.Unregister w with
  | mk ws => rw [hres] at key; simpa using key

/-- Appending an entry that is not in the list and erasing it gives the list
back. -/
theorem erase_append_singleton {α : Type} [DecidableEq α] (l : List α) (a : α)
    (ha : a ∉ l) : (l ++ [a]).erase a = l := by
  induction l with
  | nil => simp
  | cons x rest ih =>
    have hx : x ≠ a := fun e => ha (by simp [e])
    have hrest : a ∉ rest := fun m => ha (by simp [m])
    have hbeq : (x == a) = false := by simpa using hx
    simp [List.erase_cons, hbeq, ih hrest]

/-- C11 (as stated, it fails): on a handler that already holds listener 1,
`RegisterListener(1)` followed by `UnregisterListener(1)` leaves listener 1
registered once, and the next `OnCreate` delivers its event to listener 1. -/
theorem unregister_after_register_still_delivers :
    ((((⟨[⟨1⟩]⟩ : FileOperationsHandler).RegisterListener ⟨1⟩).UnregisterListener
        ⟨1⟩).OnCreate [⟨"file:///workspace/test.go"⟩]).2 =
      [⟨⟨1⟩, ⟨FileEventCreated, ["file:///workspace/test.go"]⟩⟩] := by
  decide

/-- C11 (amended): on a handler in which `l` is not already registered,
`RegisterListener(l)` followed by `UnregisterListener(l)` gives the handler
back, and no sequence of subsequent `OnCreate`, `OnRename` and `OnDelete` calls
delivers an event to `l`. -/
theorem unregister_after_fresh_register_no_delivery (h : FileOperationsHandler)
    (l : FileOperationsListener) (calls : List HandlerCall) (hl : l ∉ h.listeners) :
    (h.RegisterListener l).UnregisterListener l = h ∧
    ∀ d ∈ (((h.RegisterListener l).UnregisterListener l).handleAll calls).2,
      d.listener ≠ l := by
  have hback : (h.RegisterListener l).UnregisterListener l = h := by
    rw [UnregisterListener_eq]
    simp [FileOperationsHandler.RegisterListener, erase_append_singleton h.listeners l hl]
  refine ⟨hback, ?_⟩
  rw [hback]
  intro d hd hdl
  exact hl (hdl ▸ (handleAll_spec h calls).2 d hd)

/-- C11 (amended) on the handler holding listener 2: after registering and
unregistering listener 1, a create and a rename reach listener 2 only. -/
theorem unregister_after_fresh_register_no_delivery_witness :
    (⟨1⟩ : FileOperationsListener) ∉ (⟨[⟨2⟩]⟩ : FileOperationsHandler).listeners ∧
    (((⟨[⟨2⟩]⟩ : FileOperationsHandler).RegisterListener ⟨1⟩).UnregisterListener ⟨1⟩ =
        ⟨[⟨2⟩]⟩ ∧
     ∀ d ∈ ((((⟨[⟨2⟩]⟩ : FileOperationsHandler).RegisterListener ⟨1⟩).UnregisterListener
          ⟨1⟩).handleAll
          [HandlerCall.OnCreate [⟨"file:///workspace/test.go"⟩],
           HandlerCall.OnRename [⟨"file:///workspace/old.go", "file:///workspace/new.go"⟩]]).2,
        d.listener ≠ ⟨1⟩) :=
  ⟨by decide, unregister_after_fresh_register_no_delivery _ _ _ (by decide)⟩

/-- C16: `Unregister(w)` on a registry that does not hold `w` leaves the list
of registered waiters as it is; on a registry holding `w` once, a second
`Unregister(w)` changes nothing after the first. -/
theorem unregister_absent_is_noop (r1 r2 : WaiterRegistry) (w : WaiterRef)
    (habs : w ∉ r1.waiters) (honce : r2.waiters.count w = 1) :
    r1.Unregister w = r1 ∧
    (r1.Unregister w).waiters = r1.waiters ∧
    (r2.Unregister w).Unregister w = r2.Unregister w := by
  have h1 : r1.Unregister w = r1 := by
    rw [Unregister_eq, List.erase_of_not_mem habs]
  refine ⟨h1, by rw [h1], ?_⟩
  have hgone : w ∉ r2.waiters.erase w := by
    rw [← List.count_eq_zero, List.count_erase_self, honce]
  rw [Unregister_eq r2 w, Unregister_eq]
  simp [List.erase_of_not_mem hgone]

/-- C16 on concrete registries: waiter 3 is absent from `[1, 2]`, and held once
in `[1, 3, 2]`. -/
theorem unregister_absent_is_noop_witness :
    (3 : WaiterRef) ∉ (⟨[1, 2]⟩ : WaiterRegistry).waiters ∧
    (⟨[1, 3, 2]⟩ : WaiterRegistry).waiters.count 3 = 1 ∧
    (⟨[1, 2]⟩ : WaiterRegistry).Unregister 3 = ⟨[1, 2]⟩ ∧
    ((⟨[1, 3, 2]⟩ : WaiterRegistry).Unregister 3).Unregister 3 = ⟨[1, 2]⟩ := by
  obtain ⟨h1, -, h2⟩ :=
    unregister_absent_is_noop ⟨[1, 2]⟩ ⟨[1, 3, 2]⟩ 3 (by decide) (by decide)
  refine ⟨by decide, by decide, h1, ?_⟩
  rw [h2]
  decide

/-! ### Waiter registry -/

/-- The delivery loop leaves a waiter as it was when the waiter is not in the
list, or does not have the URI of the notification, or is already marked
received; this holds also when the loop stops in a panic. -/
theorem notifyWaiters_untouched (uri : String) (params : RawMessage) (l : List WaiterRef)
    (waiters : WaiterRef → NotificationWaiter) (ref : WaiterRef)
    (h : ref ∉ l ∨ ¬ ((waiters ref).URI = uri ∧ (waiters ref).Received = false)) :
    (notifyWaiters uri params l waiters).1 ref = waiters ref := by
  induction l generalizing waiters with
  | nil => simp [notifyWaiters]
  | cons r rest ih =>
    simp only [notifyWaiters]
    by_cases hm : (waiters r).URI = uri ∧ (waiters r).Received = false
    · have hne : ref ≠ r := by
        intro hr
        rw [hr] at h
        rcases h with h | h
        · exact h (List.mem_cons_self _ _)
        · exact h hm
      rw [if_pos hm]
      by_cases h0 : (waiters r).Ready = 0
      · rw [if_pos h0, ih]
        · exact Function.update_noteq hne _ _
        · rcases h with h | h
          · exact Or.inl (fun hh => h (List.mem_cons_of_mem _ hh))
          · right
            rw [Function.update_noteq hne]
            exact h
      · rw [if_neg h0]
        exact Function.update_noteq hne _ _
    · rw [if_neg hm]
      apply ih
      rcases h with h | h
      · exact Or.inl (fun hh => h (List.mem_cons_of_mem _ hh))
      · exact Or.inr h

/-- The delivery loop on a list whose waiters with the URI of the notification
and no received mark all have an open channel: it does not panic, and waiter by
waiter, a waiter that is in the list, has the URI and is not yet marked received
gets the payload, the mark and a closed channel; every other waiter is left as
it was. A waiter listed more than once is handled by its first entry only. -/
theorem notifyWaiters_open (uri : String) (params : RawMessage) (l : List WaiterRef)
    (waiters : WaiterRef → NotificationWaiter)
    (hopen : ∀ r ∈ l, (waiters r).URI = uri → (waiters r).Received = false →
      (waiters r).Ready = 0) :
    (notifyWaiters uri params l waiters).2 = false ∧
    ∀ ref, (notifyWaiters uri params l waiters).1 ref =
      if ref ∈ l ∧ (waiters ref).URI = uri ∧ (waiters ref).Received = false then
        { URI := (waiters ref).URI, Ready := 1, Result := some params, Received := true }
      else waiters ref := by
  induction l generalizing waiters with
  | nil => simp [notifyWaiters]
  | cons r rest ih =>
    simp only [notifyWaiters]
    by_cases hm : (waiters r).URI = uri ∧ (waiters r).Received = false
    · have h0 : (waiters r).Ready = 0 := hopen r (List.mem_cons_self _ _) hm.1 hm.2
      rw [if_pos hm, if_pos h0]
      have hopen2 : ∀ r2 ∈ rest,
          (Function.update waiters r
            { waiters r with Result := some params, Received := true,
                             Ready := (waiters r).Ready + 1 } r2).URI = uri →
          (Function.update waiters r
            { waiters r with Result := some params, Received := true,
                             Ready := (waiters r).Ready + 1 } r2).Received = false →
          (Function.update waiters r
            { waiters r with Result := some params, Received := true,
                             Ready := (waiters r).Ready + 1 } r2).Ready = 0 := by
        intro r2 hr2
        by_cases hr : r2 = r
        · rw [hr]
          simp
        · rw [Function.update_noteq hr]
          exact hopen r2 (List.mem_cons_of_mem _ hr2)
      obtain ⟨ihp, ihw⟩ := ih _ hopen2
      refine ⟨ihp, fun ref => ?_⟩
      rw [ihw]
      by_cases hr : ref = r
      · subst hr
        simp [hm, h0]
      · simp [Function.update_noteq hr, hr]
    · rw [if_neg hm]
      obtain ⟨ihp, ihw⟩ :=
        ih waiters (fun r2 hr2 => hopen r2 (List.mem_cons_of_mem _ hr2))
      refine ⟨ihp, fun ref => ?_⟩
      rw [ihw]
      by_cases hr : ref = r
      · subst hr
        have hm2 : ¬ ((waiters ref).URI = uri ∧ (waiters ref).Received = false) := hm
        simp only [List.mem_cons, true_or, true_and]
        rw [if_neg (fun h => hm2 h.2), if_neg hm2]
      · simp [hr]

/-- With a payload that is a JSON object whose `uri` is the string `u`,
`Notify` runs the delivery loop for `u`. -/
theorem Notify_of_uri (parse : RawMessage → Option JsonValue) (st : RegistryState)
    (method : String) (params : RawMessage) (entries : List (String × JsonValue)) (u : String)
    (hobj : parse params = some (JsonValue.object entries))
    (huri : jsonMapIndex entries "uri" = some (JsonValue.string u)) :
    st.Notify parse method params =
      { st with
        waiters := (notifyWaiters u params st.registry.waiters st.waiters).1
        panicked :=
          st.panicked || (notifyWaiters u params st.registry.waiters st.waiters).2 } := by
  simp [RegistryState.Notify, hobj, unmarshalParamsMap, uriOfParams, huri]

/-- Whatever the payload, `Notify` either changes nothing or runs the delivery
loop for some URI. -/
theorem Notify_cases (parse : RawMessage → Option JsonValue) (st : RegistryState)
    (method : String) (params : RawMessage) :
    st.Notify parse method params = st ∨
    ∃ u, st.Notify parse method params =
      { st with
        waiters := (notifyWaiters u params st.registry.waiters st.waiters).1
        panicked :=
          st.panicked || (notifyWaiters u params st.registry.waiters st.waiters).2 } := by
  unfold RegistryState.Notify
  cases unmarshalParamsMap (parse params) with
  | none => left; rfl
  | some m =>
    cases hu : uriOfParams m with
    | none => left; simp [hu]
    | some u => right; exact ⟨u, by simp [hu]⟩

/-- `Notify` leaves the list of registered waiters as it is. -/
theorem Notify_registry (parse : RawMessage → Option JsonValue) (st : RegistryState)
    (method : String) (params : RawMessage) :
    (st.Notify parse method params).registry = st.registry := by
  rcases Notify_cases parse st method params with h | ⟨u, h⟩ <;> rw [h]

/-- `Notify` leaves a waiter as it is when the waiter is not registered or is
already marked received, also when the call panics. -/
theorem Notify_unchanged (parse : RawMessage → Option JsonValue) (st : RegistryState)
    (method : String) (params : RawMessage) (ref : WaiterRef)
    (h : ref ∉ st.registry.waiters ∨ (st.waiters ref).Received = true) :
    (st.Notify parse method params).waiters ref = st.waiters ref := by
  rcases Notify_cases parse st method params with he | ⟨u, he⟩
  · rw [he]
  · rw [he]
    apply notifyWaiters_untouched
    rcases h with h | h
    · exact Or.inl h
    · right
      rintro ⟨-, hrec⟩
      rw [h] at hrec
      exact Bool.noConfusion hrec

/-- `Notify` with a payload whose `uri` is the string `u`, on a state whose
registered waiters with URI `u` and no received mark all have an open channel:
the call does not panic, and each waiter is either delivered to (registered,
URI `u`, not yet received) or left as it was. -/
theorem Notify_open (parse : RawMessage → Option JsonValue) (st : RegistryState)
    (method : String) (params : RawMessage) (entries : List (String × JsonValue)) (u : String)
    (hobj : parse params = some (JsonValue.object entries))
    (huri : jsonMapIndex entries "uri" = some (JsonValue.string u))
    (hopen : ∀ r ∈ st.registry.waiters, (st.waiters r).URI = u →
      (st.waiters r).Received = false → (st.waiters r).Ready = 0) :
    (st.Notify parse method params).panicked = st.panicked ∧
    ∀ ref, (st.Notify parse method params).waiters ref =
      if ref ∈ st.registry.waiters ∧ (st.waiters ref).URI = u ∧
          (st.waiters ref).Received = false then
        { URI := (st.waiters ref).URI, Ready := 1, Result := some params, Received := true }
      else st.waiters ref := by
  rw [Notify_of_uri parse st method params entries u hobj huri]
  obtain ⟨hp, hw⟩ := notifyWaiters_open u params st.registry.waiters st.waiters hopen
  refine ⟨?_, hw⟩
  show (st.panicked || (notifyWaiters u params st.registry.waiters st.waiters).2) = st.panicked
  rw [hp, Bool.or_false]

/-- C12 (as stated, it fails): the registry `[1, 2]` holds two waiters for
`file:///match.go`, neither marked received; the `Ready` channel of waiter 1 is
already closed. `Notify` with the match.go payload writes the payload and the
mark into waiter 1, panics on closing its channel and never reaches waiter 2,
which stays not received, without `Result` and with its channel open. -/
theorem notify_closed_channel_stops_delivery :
    sampleParse payloadMatch =
      some (JsonValue.object
        [("uri", JsonValue.string "file:///match.go"), ("diagnostics", JsonValue.array [])]) ∧
    (RegistryState.Notify sampleParse
        ⟨⟨[1, 2]⟩, fun ref =>
          if ref = 1 then
            { URI := "file:///match.go", Ready := 1, Result := none, Received := false }
          else freshWaiter "file:///match.go", false⟩
        "textDocument/publishDiagnostics" payloadMatch).panicked = true ∧
    (RegistryState.Notify sampleParse
        ⟨⟨[1, 2]⟩, fun ref =>
          if ref = 1 then
            { URI := "file:///match.go", Ready := 1, Result := none, Received := false }
          else freshWaiter "file:///match.go", false⟩
        "textDocument/publishDiagnostics" payloadMatch).waiters 1 =
      { URI := "file:///match.go", Ready := 1, Result := some payloadMatch, Received := true } ∧
    (RegistryState.Notify sampleParse
        ⟨⟨[1, 2]⟩, fun ref =>
          if ref = 1 then
            { URI := "file:///match.go", Ready := 1, Result := none, Received := false }
          else freshWaiter "file:///match.go", false⟩
        "textDocument/publishDiagnostics" payloadMatch).waiters 2 =
      { URI := "file:///match.go", Ready := 0, Result := none, Received := false } := by
  exact ⟨rfl, rfl, rfl, rfl⟩

/-- C12 (amended): for every registry state in which each registered, not yet
received waiter with URI `u` has an open `Ready` channel, and every payload that
is a JSON object whose `uri` is the string `u`, `Notify` returns without a
panic, keeps the list of registered waiters, and for every waiter: if it is
registered, has URI `u` and is not yet received, it becomes received, its
`Result` is exactly the payload and its `Ready` channel is closed; if its URI
differs from `u`, it is left as it was. -/
theorem notify_delivers_to_matching_open_waiters (parse : RawMessage → Option JsonValue)
    (st : RegistryState) (method : String) (params : RawMessage)
    (entries : List (String × JsonValue)) (u : String)
    (hobj : parse params = some (JsonValue.object entries))
    (huri : jsonMapIndex entries "uri" = some (JsonValue.string u))
    (hopen : ∀ ref ∈ st.registry.waiters, (st.waiters ref).URI = u →
      (st.waiters ref).Received = false → (st.waiters ref).Ready = 0) :
    (st.Notify parse method params).panicked = st.panicked ∧
    (st.Notify parse method params).registry = st.registry ∧
    ∀ ref : WaiterRef,
      (ref ∈ st.registry.waiters → (st.waiters ref).URI = u →
        (st.waiters ref).Received = false →
          (st.Notify parse method params).waiters ref =
            { URI := (st.waiters ref).URI, Ready := 1,
              Result := some params, Received := true }) ∧
      ((st.waiters ref).URI ≠ u →
          (st.Notify parse method params).waiters ref = st.waiters ref) := by
  obtain ⟨hp, hw⟩ := Notify_open parse st method params entries u hobj huri hopen
  refine ⟨hp, Notify_registry parse st method params, ?_⟩
  intro ref
  rw [hw ref]
  constructor
  · intro hmem hu hrec
    rw [if_pos ⟨hmem, hu, hrec⟩]
  · intro hne
    rw [if_neg (fun h => hne h.2.1)]

/-- C12 (amended) on the registry `[1, 2]` with fresh waiters, waiter 1 for
`file:///match.go` and waiter 2 for `file:///different.go`: the match.go payload
is delivered to waiter 1 without a panic and leaves waiter 2 untouched. -/
theorem notify_delivers_to_matching_open_waiters_witness :
    sampleParse payloadMatch =
      some (JsonValue.object
        [("uri", JsonValue.string "file:///match.go"), ("diagnostics", JsonValue.array [])]) ∧
    jsonMapIndex
        [("uri", JsonValue.string "file:///match.go"), ("diagnostics", JsonValue.array [])]
        "uri" = some (JsonValue.string "file:///match.go") ∧
    (∀ ref ∈ ([1, 2] : List WaiterRef),
      (if ref = 1 then freshWaiter "file:///match.go"
        else freshWaiter "file:///different.go").URI = "file:///match.go" →
      (if ref = 1 then freshWaiter "file:///match.go"
        else freshWaiter "file:///different.go").Received = false →
      (if ref = 1 then freshWaiter "file:///match.go"
        else freshWaiter "file:///different.go").Ready = 0) ∧
    ((RegistryState.Notify sampleParse
        ⟨⟨[1, 2]⟩, fun ref =>
          if ref = 1 then freshWaiter "file:///match.go" else freshWaiter "file:///different.go",
          false⟩
        "textDocument/publishDiagnostics" payloadMatch).panicked = false) ∧
    ((RegistryState.Notify sampleParse
        ⟨⟨[1, 2]⟩, fun ref =>
          if ref = 1 then freshWaiter "file:///match.go" else freshWaiter "file:///different.go",
          false⟩
        "textDocument/publishDiagnostics" payloadMatch).waiters 1 =
      { URI := "file:///match.go", Ready := 1, Result := some payloadMatch, Received := true }) ∧
    ((RegistryState.Notify sampleParse
        ⟨⟨[1, 2]⟩, fun ref =>
          if ref = 1 then freshWaiter "file:///match.go" else freshWaiter "file:///different.go",
          false⟩
        "textDocument/publishDiagnostics" payloadMatch).waiters 2 =
      freshWaiter "file:///different.go") := by
  have hparse : sampleParse payloadMatch =
      some (JsonValue.object
        [("uri", JsonValue.string "file:///match.go"), ("diagnostics", JsonValue.array [])]) := by
    rfl
  have hidx : jsonMapIndex
      [("uri", JsonValue.string "file:///match.go"), ("diagnostics", JsonValue.array [])]
      "uri" = some (JsonValue.string "file:///match.go") := by
    rfl
  have hopen : ∀ ref ∈ ([1, 2] : List WaiterRef),
      (if ref = 1 then freshWaiter "file:///match.go"
        else freshWaiter "file:///different.go").URI = "file:///match.go" →
      (if ref = 1 then freshWaiter "file:///match.go"
        else freshWaiter "file:///different.go").Received = false →
      (if ref = 1 then freshWaiter "file:///match.go"
        else freshWaiter "file:///different.go").Ready = 0 := by
    intro ref _ _ _
    by_cases h : ref = 1
    · rw [if_pos h]; rfl
    · rw [if_neg h]; rfl
  have key := notify_delivers_to_matching_open_waiters sampleParse
    ⟨⟨[1, 2]⟩, fun ref =>
      if ref = 1 then freshWaiter "file:///match.go" else freshWaiter "file:///different.go",
      false⟩
    "textDocument/publishDiagnostics" payloadMatch _ _ hparse hidx hopen
  refine ⟨hparse, hidx, hopen, key.1, ?_, ?_⟩
  · exact (key.2.2 1).1 (by decide) (by decide) (by decide)
  · exact (key.2.2 2).2 (by decide)

/-- A call keeps the link between the received mark and the channel: the
channel of a waiter is closed (once) if the waiter is marked received and open
otherwise; and under that link no call panics. -/
theorem call_preserves_release_count (parse : RawMessage → Option JsonValue)
    (st : RegistryState) (c : RegistryCall)
    (hinv : ∀ ref, (st.waiters ref).Ready = if (st.waiters ref).Received then 1 else 0) :
    (∀ ref, ((st.call parse c).waiters ref).Ready =
      if ((st.call parse c).waiters ref).Received then 1 else 0) ∧
    (st.call parse c).panicked = st.panicked := by
  unfold RegistryState.call
  by_cases hp : st.panicked = true
  · rw [if_pos hp]
    exact ⟨hinv, rfl⟩
  · rw [if_neg hp]
    cases c with
    | Register w => exact ⟨hinv, rfl⟩
    | Unregister w => exact ⟨hinv, rfl⟩
    | Notify method params =>
      show (∀ ref, ((st.Notify parse method params).waiters ref).Ready =
          if ((st.Notify parse method params).waiters ref).Received then 1 else 0) ∧
        (st.Notify parse method params).panicked = st.panicked
      rcases Notify_cases parse st method params with he | ⟨u, he⟩
      · simp only [he]
        exact ⟨hinv, trivial⟩
      · have hopen : ∀ r ∈ st.registry.waiters, (st.waiters r).URI = u →
            (st.waiters r).Received = false → (st.waiters r).Ready = 0 := by
          intro r _ _ hrec
          have h0 := hinv r
          rw [hrec] at h0
          simpa using h0
        obtain ⟨hpan, hw⟩ := notifyWaiters_open u params st.registry.waiters st.waiters hopen
        simp only [he, hpan, Bool.or_false, and_true]
        intro ref
        rw [hw ref]
        by_cases hm : ref ∈ st.registry.waiters ∧ (st.waiters ref).URI = u ∧
            (st.waiters ref).Received = false
        · simp [if_pos hm]
        · simp only [if_neg hm]; exact hinv ref

/-- A sequence of calls keeps the link between the received mark and the
channel, and under that link it runs to its end without a panic. -/
theorem run_preserves_release_count (parse : RawMessage → Option JsonValue)
    (calls : List RegistryCall) (st : RegistryState)
    (hinv : ∀ ref, (st.waiters ref).Ready = if (st.waiters ref).Received then 1 else 0) :
    (∀ ref, ((st.run parse calls).waiters ref).Ready =
      if ((st.run parse calls).waiters ref).Received then 1 else 0) ∧
    (st.run parse calls).panicked = st.panicked := by
  induction calls generalizing st with
  | nil => exact ⟨hinv, rfl⟩
  | cons c rest ih =>
    obtain ⟨h1, h2⟩ := call_preserves_release_count parse st c hinv
    obtain ⟨h3, h4⟩ := ih (st.call parse c) h1
    exact ⟨h3, h4.trans h2⟩

/-- C13: starting from waiters that are not received and whose `Ready` channel
is open, after every sequence of `Register`, `Unregister` and `Notify` calls
each waiter's `Ready` channel has been released at most once, and exactly once
if and only if the waiter is marked received; a waiter that is marked received
is left as it is by every later `Notify`, whatever its method and payload (its
`Result` stays the first payload); and no call of the sequence panics, that is,
no channel is closed a second time. -/
theorem waiter_released_at_most_once (parse : RawMessage → Option JsonValue)
    (st0 : RegistryState) (calls : List RegistryCall)
    (hfresh : ∀ ref, (st0.waiters ref).Received = false ∧ (st0.waiters ref).Ready = 0) :
    (∀ ref, ((st0.run parse calls).waiters ref).Ready ≤ 1 ∧
        (((st0.run parse calls).waiters ref).Ready = 1 ↔
          ((st0.run parse calls).waiters ref).Received = true)) ∧
    (∀ (ref : WaiterRef) (method : String) (params : RawMessage),
        ((st0.run parse calls).waiters ref).Received = true →
          ((st0.run parse calls).Notify parse method params).waiters ref =
            (st0.run parse calls).waiters ref) ∧
    (st0.run parse calls).panicked = st0.panicked ∧
    (∀ (method : String) (params : RawMessage),
        ((st0.run parse calls).Notify parse method params).panicked = st0.panicked) := by
  have hinv0 : ∀ ref, (st0.waiters ref).Ready = if (st0.waiters ref).Received then 1 else 0 := by
    intro ref
    simp [(hfresh ref).1, (hfresh ref).2]
  obtain ⟨hinv, hpan⟩ := run_preserves_release_count parse calls st0 hinv0
  refine ⟨?_, ?_, hpan, ?_⟩
  · intro ref
    have h := hinv ref
    cases hrec : ((st0.run parse calls).waiters ref).Received <;> simp [hrec] at h <;> simp [h]
  · intro ref method params hrec
    exact Notify_unchanged parse _ method params ref (Or.inr hrec)
  · intro method params
    rcases Notify_cases parse (st0.run parse calls) method params with he | ⟨u, he⟩
    · rw [he]; exact hpan
    · have hopen : ∀ r ∈ (st0.run parse calls).registry.waiters,
          ((st0.run parse calls).waiters r).URI = u →
          ((st0.run parse calls).waiters r).Received = false →
          ((st0.run parse calls).waiters r).Ready = 0 := by
        intro r _ _ hrec
        have h0 := hinv r
        rw [hrec] at h0
        simpa using h0
      obtain ⟨hp2, -⟩ := notifyWaiters_open u params _ _ hopen
      rw [he]
      show ((st0.run parse calls).panicked || _) = st0.panicked
      rw [hp2, Bool.or_false]
      exact hpan

/-- C13 with waiter 5 registered twice and notified twice, the second time with
another payload for the same URI: one release, no panic, and the first payload
stays. -/
theorem waiter_released_at_most_once_witness :
    (∀ _ref : WaiterRef,
      (freshWaiter "file:///test2.go").Received = false ∧
      (freshWaiter "file:///test2.go").Ready = 0) ∧
    ((RegistryState.run sampleParse ⟨⟨[]⟩, fun _ => freshWaiter "file:///test2.go", false⟩
        [RegistryCall.Register 5, RegistryCall.Register 5,
         RegistryCall.Notify "textDocument/publishDiagnostics" payloadTest2]).waiters 5).Ready
      = 1 ∧
    ((RegistryState.run sampleParse ⟨⟨[]⟩, fun _ => freshWaiter "file:///test2.go", false⟩
        [RegistryCall.Register 5, RegistryCall.Register 5,
         RegistryCall.Notify "textDocument/publishDiagnostics" payloadTest2]).Notify
        sampleParse "textDocument/publishDiagnostics" payloadTest2).waiters 5 =
      { URI := "file:///test2.go", Ready := 1, Result := some payloadTest2, Received := true } ∧
    ((RegistryState.run sampleParse ⟨⟨[]⟩, fun _ => freshWaiter "file:///test2.go", false⟩
        [RegistryCall.Register 5, RegistryCall.Register 5,
         RegistryCall.Notify "textDocument/publishDiagnostics" payloadTest2]).Notify
        sampleParse "textDocument/publishDiagnostics" payloadTest2).panicked = false := by
  have key := waiter_released_at_most_once sampleParse
    ⟨⟨[]⟩, fun _ => freshWaiter "file:///test2.go", false⟩
    [RegistryCall.Register 5, RegistryCall.Register 5,
     RegistryCall.Notify "textDocument/publishDiagnostics" payloadTest2]
    (fun _ => ⟨rfl, rfl⟩)
  have hrec : ((RegistryState.run sampleParse
        ⟨⟨[]⟩, fun _ => freshWaiter "file:///test2.go", false⟩
        [RegistryCall.Register 5, RegistryCall.Register 5,
         RegistryCall.Notify "textDocument/publishDiagnostics" payloadTest2]).waiters 5).Received
      = true := by
    rfl
  refine ⟨fun _ => ⟨rfl, rfl⟩, ((key.1 5).2).mpr hrec, ?_, key.2.2.2 _ _⟩
  rw [key.2.1 5 _ _ hrec]
  rfl

/-- C14: for every registry state, `Notify` with a payload that is not valid
JSON, or is a JSON value other than an object, or is an object without a `uri`
entry, or is an object whose `uri` is not a string, returns the state as it
was: no waiter and no registration changes (the function is total: it returns
normally on every input). -/
theorem notify_malformed_payload_is_noop (parse : RawMessage → Option JsonValue)
    (st : RegistryState) (method : String) (params : RawMessage)
    (hbad : parse params = none ∨
      (∃ v, parse params = some v ∧ ∀ entries, v ≠ JsonValue.object entries) ∨
      (∃ entries, parse params = some (JsonValue.object entries) ∧
        jsonMapIndex entries "uri" = none) ∨
      (∃ entries v, parse params = some (JsonValue.object entries) ∧
        jsonMapIndex entries "uri" = some v ∧ ∀ s, v ≠ JsonValue.string s)) :
    st.Notify parse method params = st := by
  rcases hbad with h | ⟨v, h, hv⟩ | ⟨entries, h, hidx⟩ | ⟨entries, v, h, hidx, hv⟩
  · simp [RegistryState.Notify, h, unmarshalParamsMap]
  · cases v with
    | null => simp [RegistryState.Notify, h, unmarshalParamsMap, uriOfParams, jsonMapIndex]
    | bool b => simp [RegistryState.Notify, h, unmarshalParamsMap]
    | number t => simp [RegistryState.Notify, h, unmarshalParamsMap]
    | string t => simp [RegistryState.Notify, h, unmarshalParamsMap]
    | array items => simp [RegistryState.Notify, h, unmarshalParamsMap]
    | object entries => exact absurd rfl (hv entries)
  · simp [RegistryState.Notify, h, unmarshalParamsMap, uriOfParams, hidx]
  · cases v with
    | string t => exact absurd rfl (hv t)
    | null => simp [RegistryState.Notify, h, unmarshalParamsMap, uriOfParams, hidx]
    | bool b => simp [RegistryState.Notify, h, unmarshalParamsMap, uriOfParams, hidx]
    | number t => simp [RegistryState.Notify, h, unmarshalParamsMap, uriOfParams, hidx]
    | array items => simp [RegistryState.Notify, h, unmarshalParamsMap, uriOfParams, hidx]
    | object es => simp [RegistryState.Notify, h, unmarshalParamsMap, uriOfParams, hidx]

/-- C14 on a registry holding a fresh waiter: the payloads `invalid json`, `[]`,
`{"diagnostics":[]}` and `{"uri":7}` each leave the state as it was. -/
theorem notify_malformed_payload_is_noop_witness :
    RegistryState.Notify sampleParse ⟨⟨[1]⟩, fun _ => freshWaiter "file:///test.go", false⟩
        "textDocument/publishDiagnostics" "invalid json" =
      ⟨⟨[1]⟩, fun _ => freshWaiter "file:///test.go", false⟩ ∧
    RegistryState.Notify sampleParse ⟨⟨[1]⟩, fun _ => freshWaiter "file:///test.go", false⟩
        "textDocument/publishDiagnostics" "[]" =
      ⟨⟨[1]⟩, fun _ => freshWaiter "file:///test.go", false⟩ ∧
    RegistryState.Notify sampleParse ⟨⟨[1]⟩, fun _ => freshWaiter "file:///test.go", false⟩
        "textDocument/publishDiagnostics" payloadNoUri =
      ⟨⟨[1]⟩, fun _ => freshWaiter "file:///test.go", false⟩ ∧
    RegistryState.Notify sampleParse ⟨⟨[1]⟩, fun _ => freshWaiter "file:///test.go", false⟩
        "textDocument/publishDiagnostics" payloadNumericUri =
      ⟨⟨[1]⟩, fun _ => freshWaiter "file:///test.go", false⟩ :=
  ⟨notify_malformed_payload_is_noop _ _ _ _ (Or.inl rfl),
   notify_malformed_payload_is_noop _ _ _ _
     (Or.inr (Or.inl ⟨JsonValue.array [], rfl, fun _ h => JsonValue.noConfusion h⟩)),
   notify_malformed_payload_is_noop _ _ _ _
     (Or.inr (Or.inr (Or.inl ⟨[("diagnostics", JsonValue.array [])], rfl, rfl⟩))),
   notify_malformed_payload_is_noop _ _ _ _
     (Or.inr (Or.inr (Or.inr ⟨[("uri", JsonValue.number "7")], JsonValue.number "7", rfl, rfl,
       fun _ h => JsonValue.noConfusion h⟩)))⟩

/-- A sequence of `Notify` calls leaves the registry as it is, and leaves as it
is every waiter that is not registered, also when one of the calls panics. -/
theorem run_notifications_unregistered (parse : RawMessage → Option JsonValue)
    (notifications : List (String × RawMessage)) (st : RegistryState) (ref : WaiterRef)
    (href : ref ∉ st.registry.waiters) :
    (st.run parse (notifications.map (fun n => RegistryCall.Notify n.1 n.2))).registry =
      st.registry ∧
    (st.run parse (notifications.map (fun n => RegistryCall.Notify n.1 n.2))).waiters ref =
      st.waiters ref := by
  induction notifications generalizing st with
  | nil => exact ⟨rfl, rfl⟩
  | cons n rest ih =>
    simp only [List.map_cons, RegistryState.run, RegistryState.call]
    by_cases hp : st.panicked = true
    · rw [if_pos hp]
      exact ih st href
    · rw [if_neg hp]
      have hreg := Notify_registry parse st n.1 n.2
      have hw := Notify_unchanged parse st n.1 n.2 ref (Or.inl href)
      obtain ⟨h1, h2⟩ := ih (st.Notify parse n.1 n.2) (by rw [hreg]; exact href)
      exact ⟨h1.trans hreg, h2.trans hw⟩

/-- C15 (as stated, it fails): on a registry that already holds waiter 5,
`Register(5)` followed by `Unregister(5)` leaves waiter 5 registered once, and
the next `Notify` for its URI delivers to it: received, the payload as
`Result`, `Ready` released. -/
theorem unregister_after_register_still_notified :
    (((RegistryState.Register ⟨⟨[5]⟩, fun _ => freshWaiter "file:///test2.go", false⟩ 5).Unregister
        5).Notify sampleParse "textDocument/publishDiagnostics" payloadTest2).waiters 5 =
      { URI := "file:///test2.go", Ready := 1, Result := some payloadTest2, Received := true } := by
  rfl

/-- C15 (amended): for a waiter `w` that is not already registered,
`Register(w)` followed by `Unregister(w)` gives the list of registered waiters
back, and every later sequence of `Notify` calls, whatever the payloads, leaves
`w` as it was: for a waiter that was not received, had no `Result` and an
unreleased `Ready`, all three stay so. -/
theorem unregister_after_fresh_register_no_notification
    (parse : RawMessage → Option JsonValue) (st : RegistryState) (w : WaiterRef)
    (notifications : List (String × RawMessage)) (hw : w ∉ st.registry.waiters) :
    ((st.Register w).Unregister w).registry = st.registry ∧
    (((st.Register w).Unregister w).run parse
        (notifications.map (fun n => RegistryCall.Notify n.1 n.2))).waiters w = st.waiters w ∧
    (st.waiters w = { URI := (st.waiters w).URI, Ready := 0, Result := none, Received := false } →
      ((((st.Register w).Unregister w).run parse
          (notifications.map (fun n => RegistryCall.Notify n.1 n.2))).waiters w).Received = false ∧
      ((((st.Register w).Unregister w).run parse
          (notifications.map (fun n => RegistryCall.Notify n.1 n.2))).waiters w).Result = none ∧
      ((((st.Register w).Unregister w).run parse
          (notifications.map (fun n => RegistryCall.Notify n.1 n.2))).waiters w).Ready = 0) := by
  have hreg : ((st.Register w).Unregister w).registry = st.registry := by
    simp only [RegistryState.Register, RegistryState.Unregister, Unregister_eq,
      WaiterRegistry.Register, erase_append_singleton st.registry.waiters w hw]
  have hrun := run_notifications_unregistered parse notifications
    ((st.Register w).Unregister w) w (by rw [hreg]; exact hw)
  have hsame : (((st.Register w).Unregister w).run parse
      (notifications.map (fun n => RegistryCall.Notify n.1 n.2))).waiters w = st.waiters w :=
    hrun.2
  refine ⟨hreg, hsame, ?_⟩
  intro hfresh
  rw [hsame, hfresh]
  exact ⟨rfl, rfl, rfl⟩

/-- C15 (amended) on a new registry, as in the test: waiter 5 is registered,
unregistered and then notified for its own URI; it stays fresh. -/
theorem unregister_after_fresh_register_no_notification_witness :
    (5 : WaiterRef) ∉ NewWaiterRegistry.waiters ∧
    ((((RegistryState.Register ⟨NewWaiterRegistry, fun _ => freshWaiter "file:///test2.go", false⟩
        5).Unregister 5).run sampleParse
        [RegistryCall.Notify "textDocument/publishDiagnostics" payloadTest2]).waiters 5 =
      freshWaiter "file:///test2.go") :=
  ⟨by decide,
   (unregister_after_fresh_register_no_notification sampleParse
      ⟨NewWaiterRegistry, fun _ => freshWaiter "file:///test2.go", false⟩ 5
      [("textDocument/publishDiagnostics", payloadTest2)] (by decide)).2.1⟩

/-! ### File-operation notifications and requests of the client -/

/-- C17: for every payload that cannot be decoded, `handleDidCreateFiles`,
`handleDidRenameFiles` and `handleDidDeleteFiles` return a nil error and make
no call on the file-operations handler. -/
theorem did_handlers_drop_undecodable (json : FileParamsUnmarshal) (c : Client)
    (paramsC paramsR paramsD : RawMessage)
    (hc : json.createFiles paramsC = none) (hr : json.renameFiles paramsR = none)
    (hd : json.deleteFiles paramsD = none) :
    c.handleDidCreateFiles json paramsC = (none, []) ∧
    c.handleDidRenameFiles json paramsR = (none, []) ∧
    c.handleDidDeleteFiles json paramsD = (none, []) := by
  simp [Client.handleDidCreateFiles, Client.handleDidRenameFiles, Client.handleDidDeleteFiles,
    hc, hr, hd]

/-- C17 on the payload `invalid json` with a handler set, as in the test. -/
theorem did_handlers_drop_undecodable_witness :
    sampleUnmarshal.createFiles "invalid json" = none ∧
    sampleUnmarshal.renameFiles "invalid json" = none ∧
    sampleUnmarshal.deleteFiles "invalid json" = none ∧
    (Client.handleDidCreateFiles sampleUnmarshal ⟨some 1⟩ "invalid json" = (none, []) ∧
     Client.handleDidRenameFiles sampleUnmarshal ⟨some 1⟩ "invalid json" = (none, []) ∧
     Client.handleDidDeleteFiles sampleUnmarshal ⟨some 1⟩ "invalid json" = (none, [])) :=
  ⟨by decide, by decide, by decide,
   did_handlers_drop_undecodable sampleUnmarshal ⟨some 1⟩ _ _ _
     (by decide) (by decide) (by decide)⟩

/-- C18: for every decodable payload, `handleDidCreateFiles`,
`handleDidRenameFiles` and `handleDidDeleteFiles` return a nil error; with a
handler set they make exactly one call, `OnCreate`, `OnRename` or `OnDelete`
respectively, with the decoded `Files` list as it is; with no handler set they
make no call. -/
theorem did_handlers_forward_decoded_files (json : FileParamsUnmarshal) (handler : Nat)
    (paramsC paramsR paramsD : RawMessage)
    (pc : createFilesParams) (pr : renameFilesParams) (pd : deleteFilesParams)
    (hc : json.createFiles paramsC = some pc) (hr : json.renameFiles paramsR = some pr)
    (hd : json.deleteFiles paramsD = some pd) :
    (Client.handleDidCreateFiles json ⟨some handler⟩ paramsC =
        (none, [HandlerCall.OnCreate pc.Files]) ∧
     Client.handleDidRenameFiles json ⟨some handler⟩ paramsR =
        (none, [HandlerCall.OnRename pr.Files]) ∧
     Client.handleDidDeleteFiles json ⟨some handler⟩ paramsD =
        (none, [HandlerCall.OnDelete pd.Files])) ∧
    (Client.handleDidCreateFiles json ⟨none⟩ paramsC = (none, []) ∧
     Client.handleDidRenameFiles json ⟨none⟩ paramsR = (none, []) ∧
     Client.handleDidDeleteFiles json ⟨none⟩ paramsD = (none, [])) := by
  simp [Client.handleDidCreateFiles, Client.handleDidRenameFiles, Client.handleDidDeleteFiles,
    hc, hr, hd]

/-- C18 on the payloads of the tests, with a handler set. -/
theorem did_handlers_forward_decoded_files_witness :
    Client.handleDidCreateFiles sampleUnmarshal ⟨some 1⟩ payloadCreateFiles =
      (none, [HandlerCall.OnCreate [⟨"file:///workspace/test.go"⟩]]) ∧
    Client.handleDidRenameFiles sampleUnmarshal ⟨some 1⟩ payloadRenameFiles =
      (none, [HandlerCall.OnRename [⟨"file:///workspace/old.go", "file:///workspace/new.go"⟩]]) ∧
    Client.handleDidDeleteFiles sampleUnmarshal ⟨some 1⟩ payloadCreateFiles =
      (none, [HandlerCall.OnDelete [⟨"file:///workspace/test.go"⟩]]) :=
  (did_handlers_forward_decoded_files sampleUnmarshal 1
    payloadCreateFiles payloadRenameFiles payloadCreateFiles
    ⟨[⟨"file:///workspace/test.go"⟩]⟩
    ⟨[⟨"file:///workspace/old.go", "file:///workspace/new.go"⟩]⟩
    ⟨[⟨"file:///workspace/test.go"⟩]⟩ (by decide) (by decide) (by decide)).1

/-- C19: for every payload, decodable or not, and whether or not a handler is
set, `handleWillCreateFiles`, `handleWillRenameFiles` and
`handleWillDeleteFiles` return a nil result and a nil error and make no call on
the file-operations handler. -/
theorem will_handlers_return_nil (json : FileParamsUnmarshal) (c : Client)
    (params : RawMessage) :
    c.handleWillCreateFiles json params = ((none, none), []) ∧
    c.handleWillRenameFiles json params = ((none, none), []) ∧
    c.handleWillDeleteFiles json params = ((none, none), []) := by
  refine ⟨?_, ?_, ?_⟩
  · unfold Client.handleWillCreateFiles
    cases json.createFiles params <;> rfl
  · unfold Client.handleWillRenameFiles
    cases json.renameFiles params <;> rfl
  · unfold Client.handleWillDeleteFiles
    cases json.deleteFiles params <;> rfl

/-! ### Rename detection -/

/-- C20: starting with no pending delete, `trackDeleteEvent(old)` at time `t0`
records the one pending delete and emits nothing; `checkForRename(new)` at a
time `t1` inside the debounce window then returns true, emits exactly one
rename carrying the single pair from `old` to `new`, emits no delete, and
leaves the pending-delete map empty; this does not depend on the order in which
the map is scanned. -/
theorem rename_detected_within_window (old new : String) (t0 t1 pick : Nat)
    (hwin : t1 < t0 + watcher.debounceWindow) :
    watcher.WorkspaceWatcher.trackDeleteEvent ⟨[]⟩ old t0 = (⟨[⟨old, t0⟩]⟩, []) ∧
    watcher.WorkspaceWatcher.checkForRename
        (watcher.WorkspaceWatcher.trackDeleteEvent ⟨[]⟩ old t0).1 new t1 pick =
      ((⟨[]⟩, true), [HandlerCall.OnRename [⟨old, new⟩]]) := by
  constructor
  · simp [watcher.WorkspaceWatcher.trackDeleteEvent]
  · simp [watcher.WorkspaceWatcher.trackDeleteEvent, watcher.WorkspaceWatcher.checkForRename,
      watcher.stillArmed, hwin, Nat.mod_one]

/-- C20 on the URIs of the test: the delete of old.go at time 0 and the create
of new.go 50 ms later. -/
theorem rename_detected_within_window_witness :
    50 < 0 + watcher.debounceWindow ∧
    watcher.WorkspaceWatcher.checkForRename
        (watcher.WorkspaceWatcher.trackDeleteEvent ⟨[]⟩ "file:///workspace/old.go" 0).1
        "file:///workspace/new.go" 50 0 =
      ((⟨[]⟩, true),
       [HandlerCall.OnRename [⟨"file:///workspace/old.go", "file:///workspace/new.go"⟩]]) :=
  ⟨by decide,
   (rename_detected_within_window "file:///workspace/old.go" "file:///workspace/new.go"
      0 50 0 (by decide)).2⟩

/-! ### Event kinds -/

/-- C24: `FileEventType.String` is "created", "renamed" and "deleted" on the
three declared kinds, three distinct strings, and "unknown" on every other
value, such as 999 or a negative one. -/
theorem file_event_type_string (t : FileEventType)
    (hother : t ≠ FileEventCreated ∧ t ≠ FileEventRenamed ∧ t ≠ FileEventDeleted) :
    FileEventType.String FileEventCreated = "created" ∧
    FileEventType.String FileEventRenamed = "renamed" ∧
    FileEventType.String FileEventDeleted = "deleted" ∧
    FileEventType.String t = "unknown" ∧
    FileEventType.String FileEventCreated ≠ FileEventType.String FileEventRenamed ∧
    FileEventType.String FileEventCreated ≠ FileEventType.String FileEventDeleted ∧
    FileEventType.String FileEventRenamed ≠ FileEventType.String FileEventDeleted := by
  refine ⟨by decide, by decide, by decide, ?_, by decide, by decide, by decide⟩
  simp [FileEventType.String, hother.1, hother.2.1, hother.2.2]

/-- C24 at the values 999 and -1. -/
theorem file_event_type_string_witness :
    ((999 : FileEventType) ≠ FileEventCreated ∧ (999 : FileEventType) ≠ FileEventRenamed ∧
      (999 : FileEventType) ≠ FileEventDeleted) ∧
    FileEventType.String 999 = "unknown" ∧
    FileEventType.String (-1) = "unknown" :=
  ⟨by decide, (file_event_type_string 999 (by decide)).2.2.2.1,
   (file_event_type_string (-1) (by decide)).2.2.2.1⟩

/-! ### Method independence and exact removal -/

/-- Erasing the first entry identical to `a`, spelled out: an absent `a` leaves
the list as it is; a present `a` splits the list into the entries before its
first occurrence and those after it, and exactly that occurrence goes. -/
theorem erase_first_spec {α : Type} [DecidableEq α] (xs : List α) (a : α) :
    (a ∉ xs → xs.erase a = xs) ∧
    (a ∈ xs → ∃ pre post, xs = pre ++ a :: post ∧ a ∉ pre ∧ xs.erase a = pre ++ post ∧
      (xs.erase a).length + 1 = xs.length) := by
  constructor
  · intro h
    exact List.erase_of_not_mem h
  · intro h
    obtain ⟨pre, post, hpre, hsplit, herase⟩ := List.exists_erase_eq h
    refine ⟨pre, post, hsplit, hpre, herase, ?_⟩
    rw [herase, hsplit]
    simp
    omega

/-- The number of calls a fan-out of one event makes on listener `l` is the
number of times `l` is registered. -/
theorem deliveries_to_listener (ls : List FileOperationsListener) (ev : FileEvent)
    (l : FileOperationsListener) :
    ((ls.map (fun x => ({ listener := x, event := ev } : Delivery))).filter
      (fun d => decide (d.listener = l))).length = ls.count l := by
  rw [List.filter_map, List.length_map, List.count, List.countP_eq_length_filter]
  congr 1

/-- C30: `UnregisterListener(l)` and `Unregister(w)` remove exactly the first
entry identical to their argument: when the argument is absent the list is
unchanged; when it is present the list splits into the entries before its first
occurrence and those after it, the result is their concatenation (every other
entry kept, in order) and is shorter by exactly one; after
`UnregisterListener(l)` an event reaches `l` once less than `l` was
registered. -/
theorem unregister_removes_first_entry_only (h : FileOperationsHandler)
    (l : FileOperationsListener) (r : WaiterRegistry) (w : WaiterRef)
    (files : List FileCreate) (hne : files ≠ []) :
    ((l ∉ h.listeners → h.UnregisterListener l = h) ∧
     (l ∈ h.listeners → ∃ pre post, h.listeners = pre ++ l :: post ∧ l ∉ pre ∧
        (h.UnregisterListener l).listeners = pre ++ post ∧
        (h.UnregisterListener l).listeners.length + 1 = h.listeners.length) ∧
     (((h.UnregisterListener l).OnCreate files).2.filter
        (fun d => decide (d.listener = l))).length = h.listeners.count l - 1) ∧
    ((w ∉ r.waiters → r.Unregister w = r) ∧
     (w ∈ r.waiters → ∃ pre post, r.waiters = pre ++ w :: post ∧ w ∉ pre ∧
        (r.Unregister w).waiters = pre ++ post ∧
        (r.Unregister w).waiters.length + 1 = r.waiters.length)) := by
  refine ⟨⟨?_, ?_, ?_⟩, ?_, ?_⟩
  · intro habs
    rw [UnregisterListener_eq, (erase_first_spec h.listeners l).1 habs]
  · intro hmem
    rw [UnregisterListener_listeners]
    exact (erase_first_spec h.listeners l).2 hmem
  · rw [OnCreate_nonempty _ files hne, deliveries_to_listener, UnregisterListener_listeners,
      List.count_erase_self]
  · intro habs
    rw [Unregister_eq, (erase_first_spec r.waiters w).1 habs]
  · intro hmem
    rw [Unregister_waiters]
    exact (erase_first_spec r.waiters w).2 hmem

/-- C30 with listener 7 registered twice around listener 8, and waiter 3 in the
registry `[1, 3, 2, 3]`: one entry goes, the first one. -/
theorem unregister_removes_first_entry_only_witness :
    ([⟨"file:///workspace/test.go"⟩] : List FileCreate) ≠ [] ∧
    (FileOperationsHandler.UnregisterListener ⟨[⟨7⟩, ⟨8⟩, ⟨7⟩]⟩ ⟨7⟩).listeners = [⟨8⟩, ⟨7⟩] ∧
    (((FileOperationsHandler.UnregisterListener ⟨[⟨7⟩, ⟨8⟩, ⟨7⟩]⟩ ⟨7⟩).OnCreate
        [⟨"file:///workspace/test.go"⟩]).2.filter
        (fun d => decide (d.listener = ⟨7⟩))).length = 1 ∧
    (WaiterRegistry.Unregister ⟨[1, 3, 2, 3]⟩ 3).waiters = [1, 2, 3] ∧
    WaiterRegistry.Unregister ⟨[1, 2]⟩ 3 = ⟨[1, 2]⟩ := by
  have key := unregister_removes_first_entry_only ⟨[⟨7⟩, ⟨8⟩, ⟨7⟩]⟩ ⟨7⟩ ⟨[1, 2]⟩ 3
    [⟨"file:///workspace/test.go"⟩] (by decide)
  refine ⟨by decide, by decide, ?_, by decide, key.2.1 (by decide)⟩
  rw [key.1.2.2]
  decide

/-! ### Rename detection: timeouts and exactly-once resolution -/

open watcher

/-- C21: `trackDeleteEvent(u)` emits nothing, and `processDeleteTimeout(u)`
right after it (no create in between) emits exactly one delete carrying `u`, no
rename, and leaves no pending entry for `u`; started with no pending delete the
map is empty afterwards, and `checkForRename(c)` on a watcher with no pending
delete returns false, emits nothing and leaves the map empty. -/
theorem delete_timeout_emits_one_delete (w : WorkspaceWatcher) (u c : String)
    (t0 t1 pick : Nat) :
    (w.trackDeleteEvent u t0).2 = [] ∧
    (w.trackDeleteEvent u t0).1.processDeleteTimeout u =
      (⟨w.pendingEvents.filter (fun e => decide (e.uri ≠ u))⟩,
       [HandlerCall.OnDelete [⟨u⟩]]) ∧
    pendingOf u ((w.trackDeleteEvent u t0).1.processDeleteTimeout u).1 = 0 ∧
    (WorkspaceWatcher.trackDeleteEvent ⟨[]⟩ u t0).1.processDeleteTimeout u =
      (⟨[]⟩, [HandlerCall.OnDelete [⟨u⟩]]) ∧
    WorkspaceWatcher.checkForRename
        ((WorkspaceWatcher.trackDeleteEvent ⟨[]⟩ u t0).1.processDeleteTimeout u).1 c t1 pick =
      ((⟨[]⟩, false), []) ∧
    WorkspaceWatcher.checkForRename ⟨[]⟩ c t1 pick = ((⟨[]⟩, false), []) := by
  have h2 : (w.trackDeleteEvent u t0).1.processDeleteTimeout u =
      (⟨w.pendingEvents.filter (fun e => decide (e.uri ≠ u))⟩,
       [HandlerCall.OnDelete [⟨u⟩]]) := by
    by_cases hany : w.pendingEvents.any (fun e => decide (e.uri = u)) = true
    · simp [WorkspaceWatcher.trackDeleteEvent, WorkspaceWatcher.processDeleteTimeout, hany]
    · simp only [WorkspaceWatcher.trackDeleteEvent, hany]
      simp [WorkspaceWatcher.processDeleteTimeout, List.filter_append]
  have h5 : WorkspaceWatcher.checkForRename ⟨[]⟩ c t1 pick = ((⟨[]⟩, false), []) := by
    simp [WorkspaceWatcher.checkForRename]
  have h4 : (WorkspaceWatcher.trackDeleteEvent ⟨[]⟩ u t0).1.processDeleteTimeout u =
      (⟨[]⟩, [HandlerCall.OnDelete [⟨u⟩]]) := by
    simp [WorkspaceWatcher.trackDeleteEvent, WorkspaceWatcher.processDeleteTimeout]
  refine ⟨?_, h2, ?_, h4, ?_, h5⟩
  · by_cases hany : w.pendingEvents.any (fun e => decide (e.uri = u)) = true <;>
      simp [WorkspaceWatcher.trackDeleteEvent, hany]
  · rw [h2]
    simp [pendingOf, List.countP_filter]
  · rw [h4]
    exact h5

/-- Some pending delete exists for `u` exactly when the count of pending
deletes for `u` is not zero. -/
theorem any_pending_iff (w : WorkspaceWatcher) (u : String) :
    w.pendingEvents.any (fun e => decide (e.uri = u)) = true ↔ 0 < pendingOf u w := by
  simp [pendingOf, List.countP_pos_iff]

/-- Removing the pending deletes of `x` leaves none for `x` and keeps the count
for every other URI. -/
theorem pendingOf_remove (l : List pendingFileEvent) (x u : String) :
    pendingOf u ⟨l.filter (fun e => decide (e.uri ≠ x))⟩ =
      if u = x then 0 else pendingOf u ⟨l⟩ := by
  by_cases hux : u = x
  · subst hux
    simp [pendingOf, List.countP_filter]
  · simp only [pendingOf, List.countP_filter, if_neg hux]
    congr 1
    funext e
    by_cases he : e.uri = u
    · simp [he, hux]
    · simp [he]

/-- Events appended to a run add their renames. -/
theorem renamesOf_append (u : String) (a b : List HandlerCall) :
    renamesOf u (a ++ b) = renamesOf u a + renamesOf u b := by
  simp [renamesOf]

/-- Events appended to a run add their deletes. -/
theorem deletesOf_append (u : String) (a b : List HandlerCall) :
    deletesOf u (a ++ b) = deletesOf u a + deletesOf u b := by
  simp [deletesOf]

/-- One step keeps the balance of the run: for every URI there is at most one
pending delete, and the renames with that old side, the deletes of it and the
pending deletes for it add up to the pending deletes created for it. -/
theorem step_keeps_balance (r : WatcherRun) (s : WatcherStep)
    (hinv : ∀ u, pendingOf u r.watcher ≤ 1 ∧
      renamesOf u r.events + deletesOf u r.events + pendingOf u r.watcher = r.created.count u) :
    ∀ u, pendingOf u (r.step s).watcher ≤ 1 ∧
      renamesOf u (r.step s).events + deletesOf u (r.step s).events +
        pendingOf u (r.step s).watcher = (r.step s).created.count u := by
  intro u
  obtain ⟨hle, hbal⟩ := hinv u
  cases s with
  | trackDelete x now =>
    by_cases hany : r.watcher.pendingEvents.any (fun e => decide (e.uri = x)) = true
    · simp only [WatcherRun.step, WorkspaceWatcher.trackDeleteEvent, hany, if_true,
        List.append_nil]
      exact ⟨hle, hbal⟩
    · have hzero : pendingOf x r.watcher = 0 := by
        have := (any_pending_iff r.watcher x).not.mp hany
        omega
      have hany2 : r.watcher.pendingEvents.any (fun e => decide (e.uri = x)) = false := by
        simpa using hany
      have hp : pendingOf u ⟨r.watcher.pendingEvents ++ [⟨x, now⟩]⟩ =
          pendingOf u r.watcher + (if x = u then 1 else 0) := by
        simp [pendingOf, List.countP_append, List.countP_cons]
      have hc : (r.created ++ [x]).count u = r.created.count u + (if x = u then 1 else 0) := by
        simp [List.count_append, List.count_singleton]
      simp only [WatcherRun.step, WorkspaceWatcher.trackDeleteEvent, hany2, Bool.false_eq_true,
        if_false, List.append_nil, hp, hc]
      by_cases hux : x = u
      · subst hux
        simp only [if_true]
        omega
      · simp only [if_neg hux]
        omega
  | checkRename newURI now pick =>
    simp only [WatcherRun.step, WorkspaceWatcher.checkForRename]
    cases hm : (r.watcher.pendingEvents.filter (stillArmed now))[pick %
        (r.watcher.pendingEvents.filter (stillArmed now)).length]? with
    | none => simp only [List.append_nil]; exact ⟨hle, hbal⟩
    | some m =>
      have hmem : m ∈ r.watcher.pendingEvents := by
        have h1 := List.getElem?_mem hm
        exact (List.mem_filter.mp h1).1
      have hpos : 0 < pendingOf m.uri r.watcher := by
        rw [← any_pending_iff]
        exact List.any_eq_true.mpr ⟨m, hmem, by simp⟩
      have hone : pendingOf m.uri r.watcher = 1 := by
        have := (hinv m.uri).1
        omega
      simp only [renamesOf_append, deletesOf_append, pendingOf_remove]
      by_cases hux : u = m.uri
      · rw [if_pos hux]
        rw [hux] at hbal ⊢
        simp [renamesOf, deletesOf, renamesIn, deletesIn] at hbal ⊢
        omega
      · have hne : ¬ m.uri = u := fun e => hux e.symm
        rw [if_neg hux]
        simp [renamesOf, deletesOf, renamesIn, deletesIn, hne] at hbal ⊢
        exact ⟨hle, hbal⟩
  | deleteTimeout x =>
    by_cases hany : r.watcher.pendingEvents.any (fun e => decide (e.uri = x)) = true
    · have hpos := (any_pending_iff r.watcher x).mp hany
      have hone : pendingOf x r.watcher = 1 := by
        have := (hinv x).1
        omega
      simp only [WatcherRun.step, WorkspaceWatcher.processDeleteTimeout, hany, if_true,
        renamesOf_append, deletesOf_append, pendingOf_remove]
      by_cases hux : u = x
      · rw [if_pos hux]
        rw [hux] at hbal ⊢
        simp [renamesOf, deletesOf, renamesIn, deletesIn] at hbal ⊢
        omega
      · have hne : ¬ x = u := fun e => hux e.symm
        rw [if_neg hux]
        simp [renamesOf, deletesOf, renamesIn, deletesIn, hne] at hbal ⊢
        exact ⟨hle, hbal⟩
    · have hany2 : r.watcher.pendingEvents.any (fun e => decide (e.uri = x)) = false := by
        simpa using hany
      simp only [WatcherRun.step, WorkspaceWatcher.processDeleteTimeout, hany2,
        Bool.false_eq_true, if_false, List.append_nil]
      exact ⟨hle, hbal⟩

/-- A sequence of steps keeps the balance of the run. -/
theorem steps_keep_balance (steps : List WatcherStep) (r : WatcherRun)
    (hinv : ∀ u, pendingOf u r.watcher ≤ 1 ∧
      renamesOf u r.events + deletesOf u r.events + pendingOf u r.watcher = r.created.count u) :
    ∀ u, pendingOf u (r.steps steps).watcher ≤ 1 ∧
      renamesOf u (r.steps steps).events + deletesOf u (r.steps steps).events +
        pendingOf u (r.steps steps).watcher = (r.steps steps).created.count u := by
  induction steps generalizing r with
  | nil => exact hinv
  | cons s rest ih => exact ih (r.step s) (step_keeps_balance r s hinv)

/-- Pending deletes are created by `trackDelete` steps only, at most one per
step. -/
theorem created_le_tracks (steps : List WatcherStep) (r : WatcherRun) (u : String) :
    (r.steps steps).created.count u ≤ r.created.count u + tracksOf u steps := by
  induction steps generalizing r with
  | nil => simp [WatcherRun.steps, tracksOf]
  | cons s rest ih =>
    have h := ih (r.step s)
    have hstep : (r.step s).created.count u + tracksOf u rest ≤
        r.created.count u + tracksOf u (s :: rest) := by
      cases s with
      | trackDelete x now =>
        by_cases hany : r.watcher.pendingEvents.any (fun e => decide (e.uri = x)) = true
        · simp only [WatcherRun.step, hany, if_true, tracksOf, List.countP_cons]
          omega
        · have hany2 : r.watcher.pendingEvents.any (fun e => decide (e.uri = x)) = false := by
            simpa using hany
          simp only [WatcherRun.step, hany2, Bool.false_eq_true, if_false, tracksOf,
            List.countP_cons, List.count_append, List.count_singleton]
          by_cases hxu : x = u
          · simp [hxu]
            omega
          · have hbeq : (x == u) = false := by simpa using hxu
            simp [hxu, hbeq]
      | checkRename newURI now pick => simp [WatcherRun.step, tracksOf, List.countP_cons]
      | deleteTimeout x => simp [WatcherRun.step, tracksOf, List.countP_cons]
    exact Nat.le_trans h hstep

/-- C22 (as stated, it fails): a URI that is tracked again after its pending
delete has expired gets a second pending delete, which expires into a second
delete event: the URI a.go contributes two delete events. -/
theorem retracked_uri_deleted_twice :
    deletesOf "file:///workspace/a.go"
      (WatcherRun.start.steps
        [WatcherStep.trackDelete "file:///workspace/a.go" 0,
         WatcherStep.deleteTimeout "file:///workspace/a.go",
         WatcherStep.trackDelete "file:///workspace/a.go" 500,
         WatcherStep.deleteTimeout "file:///workspace/a.go"]).events = 2 := by
  decide

/-- C22 (amended): over every sequence of `trackDeleteEvent`, `checkForRename`
and `processDeleteTimeout` steps from the start, and for every URI: at most one
delete is pending for it; the renames with it as old side, the deletes of it
and the delete still pending for it add up to the pending deletes created for
it (each pending delete is resolved by one rename or one delete, never both and
never two), which are at most the `trackDeleteEvent` steps for it, so a URI
tracked once gives at most one event; and `processDeleteTimeout` for a URI with
no pending delete, such as one already consumed by `checkForRename`, changes
nothing and emits nothing. -/
theorem pending_delete_resolved_exactly_once (steps : List WatcherStep) (u : String)
    (w : WorkspaceWatcher) (hgone : pendingOf u w = 0) :
    pendingOf u (WatcherRun.start.steps steps).watcher ≤ 1 ∧
    renamesOf u (WatcherRun.start.steps steps).events +
        deletesOf u (WatcherRun.start.steps steps).events +
        pendingOf u (WatcherRun.start.steps steps).watcher =
      (WatcherRun.start.steps steps).created.count u ∧
    (WatcherRun.start.steps steps).created.count u ≤ tracksOf u steps ∧
    (tracksOf u steps = 1 →
      renamesOf u (WatcherRun.start.steps steps).events +
        deletesOf u (WatcherRun.start.steps steps).events ≤ 1) ∧
    w.processDeleteTimeout u = (w, []) := by
  have hstart : ∀ v, pendingOf v WatcherRun.start.watcher ≤ 1 ∧
      renamesOf v WatcherRun.start.events + deletesOf v WatcherRun.start.events +
        pendingOf v WatcherRun.start.watcher = WatcherRun.start.created.count v := by
    intro v
    simp [WatcherRun.start, pendingOf, renamesOf, deletesOf]
  obtain ⟨h1, h2⟩ := steps_keep_balance steps WatcherRun.start hstart u
  have h3 : (WatcherRun.start.steps steps).created.count u ≤ tracksOf u steps := by
    have := created_le_tracks steps WatcherRun.start u
    simpa [WatcherRun.start] using this
  refine ⟨h1, h2, h3, ?_, ?_⟩
  · intro hone
    omega
  · have hany : w.pendingEvents.any (fun e => decide (e.uri = u)) = false := by
      have := (any_pending_iff w u).not.mpr (by omega)
      simpa using this
    simp [WorkspaceWatcher.processDeleteTimeout, hany]

/-- C22 (amended) on three pending deletes a, b, c: the create of a-renamed.go consumes
one of them (here a), b and c time out into two separate deletes, and the late
timeout of a changes nothing. -/
theorem pending_delete_resolved_exactly_once_witness :
    (WatcherRun.start.steps
      [WatcherStep.trackDelete "file:///workspace/a.go" 0,
       WatcherStep.trackDelete "file:///workspace/b.go" 0,
       WatcherStep.trackDelete "file:///workspace/c.go" 0,
       WatcherStep.checkRename "file:///workspace/a-renamed.go" 10 0,
       WatcherStep.deleteTimeout "file:///workspace/b.go",
       WatcherStep.deleteTimeout "file:///workspace/c.go",
       WatcherStep.deleteTimeout "file:///workspace/a.go"]).events =
      [HandlerCall.OnRename [⟨"file:///workspace/a.go", "file:///workspace/a-renamed.go"⟩],
       HandlerCall.OnDelete [⟨"file:///workspace/b.go"⟩],
       HandlerCall.OnDelete [⟨"file:///workspace/c.go"⟩]] ∧
    pendingOf "file:///workspace/a.go" ⟨[⟨"file:///workspace/b.go", 0⟩]⟩ = 0 ∧
    WorkspaceWatcher.processDeleteTimeout ⟨[⟨"file:///workspace/b.go", 0⟩]⟩
        "file:///workspace/a.go" = (⟨[⟨"file:///workspace/b.go", 0⟩]⟩, []) ∧
    renamesOf "file:///workspace/a.go"
        (WatcherRun.start.steps
          [WatcherStep.trackDelete "file:///workspace/a.go" 0,
           WatcherStep.checkRename "file:///workspace/a-renamed.go" 10 0,
           WatcherStep.deleteTimeout "file:///workspace/a.go"]).events +
      deletesOf "file:///workspace/a.go"
        (WatcherRun.start.steps
          [WatcherStep.trackDelete "file:///workspace/a.go" 0,
           WatcherStep.checkRename "file:///workspace/a-renamed.go" 10 0,
           WatcherStep.deleteTimeout "file:///workspace/a.go"]).events ≤ 1 := by
  have key := pending_delete_resolved_exactly_once
    [WatcherStep.trackDelete "file:///workspace/a.go" 0,
     WatcherStep.checkRename "file:///workspace/a-renamed.go" 10 0,
     WatcherStep.deleteTimeout "file:///workspace/a.go"]
    "file:///workspace/a.go" ⟨[⟨"file:///workspace/b.go", 0⟩]⟩ (by decide)
  exact ⟨by decide, by decide, key.2.2.2.2, key.2.2.2.1 (by decide)⟩

/-! ### Semantic tokens -/

open tools

/-- Reading inside the slice gives the element. -/
theorem getElem?_eq_some_getD (l : List Nat) (i : Nat) (h : i < l.length) :
    l[i]? = some (l.getD i 0) := by
  simp [List.getD_eq_getElem?_getD, List.getElem?_eq_getElem h]

/-- On an array of `5 * n` integers the decoding loop, entered at token `k`
with the running position of token `k`, writes the lines of the tokens `k`,
`k + 1`, ... up to the first `min n 10` tokens, and does not panic. -/
theorem decodeLoop_wellformed (tokenTypes tokenModifiers : List String) (tokens : List Nat)
    (n : Nat) (hlen : tokens.length = 5 * n) (m k fuel : Nat)
    (hkm : k + m = min n 10) (hfuel : m + 1 ≤ fuel) :
    decodeLoop tokenTypes tokenModifiers tokens fuel (5 * k) (lineBefore tokens k)
        (charBefore tokens k) =
      some (Except.ok ((List.range' k m).map (tokenLineAt tokenTypes tokenModifiers tokens))) := by
  induction m generalizing k fuel with
  | zero =>
    obtain ⟨f, rfl⟩ : ∃ f, fuel = f + 1 := ⟨fuel - 1, by omega⟩
    have hcond : ¬ (5 * k < tokens.length ∧ 5 * k / 5 < 10) := by
      rw [hlen]
      intro h
      have h2 : 5 * k / 5 = k := by omega
      omega
    rw [decodeLoop, if_neg hcond]
    simp
  | succ m ih =>
    obtain ⟨f, rfl⟩ : ∃ f, fuel = f + 1 := ⟨fuel - 1, by omega⟩
    have hk : k < n ∧ k < 10 := by omega
    have hcond : 5 * k < tokens.length ∧ 5 * k / 5 < 10 := by
      rw [hlen]
      have h2 : 5 * k / 5 = k := by omega
      omega
    have h0 := getElem?_eq_some_getD tokens (5 * k) (by omega)
    have h1 := getElem?_eq_some_getD tokens (5 * k + 1) (by omega)
    have h2 := getElem?_eq_some_getD tokens (5 * k + 2) (by omega)
    have h3 := getElem?_eq_some_getD tokens (5 * k + 3) (by omega)
    have h4 := getElem?_eq_some_getD tokens (5 * k + 4) (by omega)
    have hnext := ih (k + 1) f (by omega) (by omega)
    have hmul : 5 * k + 5 = 5 * (k + 1) := by omega
    rw [decodeLoop, if_pos hcond, h0, h1, h2, h3, h4]
    simp only [hmul]
    have hline : (lineBefore tokens k + tokens.getD (5 * k) 0) % uint32Size =
        lineBefore tokens (k + 1) := by
      simp [lineBefore, deltaLineOf]
    have hchar : ((if tokens.getD (5 * k) 0 > 0 then 0 else charBefore tokens k) +
        tokens.getD (5 * k + 1) 0) % uint32Size = charBefore tokens (k + 1) := by
      simp [charBefore, deltaLineOf, deltaCharOf]
    rw [hline, hchar, hnext]
    simp [List.range'_succ, tokenLineAt]

/-- The running line is the sum of the `deltaLine` values so far, in `uint32`. -/
theorem lineBefore_eq_sum (tokens : List Nat) (k : Nat) :
    lineBefore tokens k =
      (Finset.sum (Finset.range k) (fun j => deltaLineOf tokens j)) % uint32Size := by
  induction k with
  | zero => simp [lineBefore, uint32Size]
  | succ k ih =>
    rw [lineBefore, ih, Finset.sum_range_succ]
    simp [Nat.add_mod]

/-- The running column is the sum of the `deltaChar` values since the last token
that moved to a new line (or since token 0), in `uint32`. -/
theorem charBefore_eq_sum (tokens : List Nat) (k j0 : Nat) (hj0 : j0 ≤ k)
    (hreset : j0 = 0 ∨ deltaLineOf tokens j0 > 0)
    (hzero : ∀ j, j0 < j → j ≤ k → deltaLineOf tokens j = 0) :
    charBefore tokens (k + 1) =
      (Finset.sum (Finset.Icc j0 k) (fun j => deltaCharOf tokens j)) % uint32Size := by
  induction k with
  | zero =>
    have : j0 = 0 := by omega
    subst this
    simp [charBefore, uint32Size]
  | succ k ih =>
    by_cases hpos : deltaLineOf tokens (k + 1) > 0
    · have hj : j0 = k + 1 := by
        by_contra hne
        have := hzero (k + 1) (by omega) (by omega)
        omega
      subst hj
      rw [charBefore]
      simp [hpos]
    · have hj : j0 ≤ k := by
        by_contra hne
        have hj1 : j0 = k + 1 := by omega
        rcases hreset with h | h
        · omega
        · rw [hj1] at h; exact hpos h
      have hprev := ih hj (fun j h1 h2 => hzero j h1 (by omega))
      rw [charBefore, if_neg hpos, hprev, Finset.sum_Icc_succ_top (by omega)]
      simp [Nat.add_mod]

/-- C26 (the code fails it): on the data array `[0, 0, 1, 0, 0, 0, 1]` of
length 7 the decoding loop enters its second iteration at `i = 5` (5 < 7 and
5/5 < 10) and the read of `tokens[7]` is out of range: the loop, and with it
`GetSemanticTokens`, ends in a run-time panic instead of a result. -/
theorem semantic_tokens_panics_on_length_seven :
    decodeTokens ["keyword"] [] [0, 0, 1, 0, 0, 0, 1] =
      some (Except.error "runtime error: index out of range [7] with length 7") ∧
    GetSemanticTokens none (Except.ok [0, 0, 1, 0, 0, 0, 1])
        (some (some (JsonValue.object [("legend", JsonValue.object
          [("tokenTypes", JsonValue.array [JsonValue.string "keyword"])])]))) =
      some (Except.error "runtime error: index out of range [7] with length 7") := by
  constructor <;> rfl

/-- C27: for a data array of `5 * n` integers and `k < min n 10`, the decoding
loop returns (no panic, enough fuel) exactly `min n 10` token lines; line `k`
shows the line number `1 + (deltaLine of tokens 0..k)` and the column
`1 + (deltaChar of tokens j0..k)`, both in `uint32`, where `j0` is the last
token up to `k` with `deltaLine > 0`, or 0 if there is none; the trailer is
"... and m more tokens" with `m = n - 10` when `n > 10` and absent otherwise;
and with a legend that has a token type, `GetSemanticTokens` returns the header
followed by these lines and the trailer, with a nil error. -/
theorem semantic_tokens_positions (tokenTypes tokenModifiers : List String)
    (tokens : List Nat) (n k j0 : Nat) (provider : JsonValue)
    (hlen : tokens.length = 5 * n) (hk : k < min n 10)
    (hj0 : j0 ≤ k) (hreset : j0 = 0 ∨ deltaLineOf tokens j0 > 0)
    (hzero : ∀ j, j0 < j → j ≤ k → deltaLineOf tokens j = 0)
    (hlegend : extractLegend provider = (tokenTypes, tokenModifiers))
    (htypes : tokenTypes ≠ []) :
    ∃ lines : List String,
      decodeTokens tokenTypes tokenModifiers tokens = some (Except.ok lines) ∧
      lines.length = min n 10 ∧
      lines[k]? = some (tokenLineText
        ((1 + Finset.sum (Finset.range (k + 1)) (fun j => deltaLineOf tokens j)) % uint32Size)
        ((1 + Finset.sum (Finset.Icc j0 k) (fun j => deltaCharOf tokens j)) % uint32Size)
        (tokens.getD (5 * k + 2) 0)
        (tokenTypeName tokenTypes (tokens.getD (5 * k + 3) 0))
        (modifierText tokenModifiers (tokens.getD (5 * k + 4) 0))) ∧
      tokenTrailer tokens =
        (if n > 10 then ["\n... and " ++ toString (n - 10) ++ " more tokens\n"] else []) ∧
      GetSemanticTokens none (Except.ok tokens) (some (some provider)) =
        some (Except.ok (String.join
          (["Semantic Tokens (" ++ toString n ++ " tokens):\n\n",
            "Token Types Available:\n"] ++ indexLines tokenTypes 0 ++
           ["\nToken Modifiers Available:\n"] ++ indexLines tokenModifiers 0 ++
           ["\nTokens (first 10):\n"] ++ lines ++ tokenTrailer tokens), none)) := by
  have hloop : decodeTokens tokenTypes tokenModifiers tokens =
      some (Except.ok ((List.range' 0 (min n 10)).map
        (tokenLineAt tokenTypes tokenModifiers tokens))) := by
    have h := decodeLoop_wellformed tokenTypes tokenModifiers tokens n hlen (min n 10) 0
      (tokens.length + 1) (by omega) (by omega)
    simpa [decodeTokens, lineBefore, charBefore] using h
  have hdiv : tokens.length / 5 = n := by omega
  refine ⟨(List.range' 0 (min n 10)).map (tokenLineAt tokenTypes tokenModifiers tokens),
    hloop, by simp, ?_, ?_, ?_⟩
  · have hidx : (List.range' 0 (min n 10))[k]? = some k := by
      rw [List.getElem?_range' 0 1 hk]
      simp
    rw [List.getElem?_map, hidx]
    simp only [Option.map_some', tokenLineAt]
    have hl : (lineBefore tokens (k + 1) + 1) % uint32Size =
        (1 + Finset.sum (Finset.range (k + 1)) (fun j => deltaLineOf tokens j)) % uint32Size := by
      rw [lineBefore_eq_sum, Nat.add_comm]
      simp [Nat.add_mod]
    have hc : (charBefore tokens (k + 1) + 1) % uint32Size =
        (1 + Finset.sum (Finset.Icc j0 k) (fun j => deltaCharOf tokens j)) % uint32Size := by
      rw [charBefore_eq_sum tokens k j0 hj0 hreset hzero, Nat.add_comm]
      simp [Nat.add_mod]
    rw [hl, hc]
  · simp [tokenTrailer, hdiv]
  · have hnonempty : tokenTypes.length ≠ 0 := by
      intro h0
      exact htypes (List.length_eq_zero.mp h0)
    have htok : tokens.length ≠ 0 := by omega
    simp only [GetSemanticTokens, hlegend, hnonempty, htok, if_false, hloop, hdiv]

/-- C27 on two tokens: the second one starts a new line, so its line is
1 + 2 + 1 and its column counts from that token on, 1 + 7. -/
theorem semantic_tokens_positions_witness :
    ([2, 4, 3, 0, 0, 1, 7, 2, 0, 0] : List Nat).length = 5 * 2 ∧ 1 < min 2 10 ∧
    (1 = 0 ∨ deltaLineOf [2, 4, 3, 0, 0, 1, 7, 2, 0, 0] 1 > 0) ∧
    ∃ lines : List String,
      decodeTokens ["keyword"] [] [2, 4, 3, 0, 0, 1, 7, 2, 0, 0] = some (Except.ok lines) ∧
      lines.length = 2 ∧
      lines[1]? = some "  Line 4, Col 8, Len 2: keyword [none]\n" := by
  obtain ⟨lines, hdec, hcount, hline, -, -⟩ := semantic_tokens_positions ["keyword"] []
    [2, 4, 3, 0, 0, 1, 7, 2, 0, 0] 2 1 1
    (JsonValue.object [("legend", JsonValue.object
      [("tokenTypes", JsonValue.array [JsonValue.string "keyword"])])])
    (by decide) (by decide) (by decide) (Or.inr (by decide))
    (fun j h1 h2 => absurd h2 (by omega)) rfl (by decide)
  refine ⟨by decide, by decide, Or.inr (by decide), lines, hdec, by simpa using hcount, ?_⟩
  rw [hline]
  decide

/-! ### Type hierarchy and inlay hints -/

/-- C25: for every direction other than "supertypes", "subtypes" and "both",
and for every client, client state, file path, line and column,
`GetTypeHierarchy` returns the empty text and the error
"direction must be 'supertypes', 'subtypes', or 'both'", with no call made on
the client and the client left as it was. -/
theorem type_hierarchy_rejects_direction {σ : Type} (client : HierarchyClient σ) (st : σ)
    (filePath : String) (line column : Int) (direction : String)
    (hbad : direction ≠ "supertypes" ∧ direction ≠ "subtypes" ∧ direction ≠ "both") :
    (GetTypeHierarchy client st filePath line column direction).text = "" ∧
    (GetTypeHierarchy client st filePath line column direction).err =
      some "direction must be 'supertypes', 'subtypes', or 'both'" ∧
    (GetTypeHierarchy client st filePath line column direction).calls = [] ∧
    (GetTypeHierarchy client st filePath line column direction).client = st := by
  simp [GetTypeHierarchy, hbad]

/-- C25 on the call of the test: direction "invalid". -/
theorem type_hierarchy_rejects_direction_witness :
    ("invalid" ≠ "supertypes" ∧ "invalid" ≠ "subtypes" ∧ "invalid" ≠ "both") ∧
    (GetTypeHierarchy closedClient () "/some/file.go" 1 1 "invalid").err =
      some "direction must be 'supertypes', 'subtypes', or 'both'" ∧
    (GetTypeHierarchy closedClient () "/some/file.go" 1 1 "invalid").calls = [] :=
  ⟨by decide,
   (type_hierarchy_rejects_direction closedClient () "/some/file.go" 1 1 "invalid"
      (by decide)).2.1,
   (type_hierarchy_rejects_direction closedClient () "/some/file.go" 1 1 "invalid"
      (by decide)).2.2.1⟩

/-- Issuing calls appends one pending call per caller, with consecutive fresh
ids, and touches nothing else. -/
theorem issueAll_spec (callers : List Nat) (t : Transport) :
    (t.issueAll callers).pending =
        t.pending ++ List.zipWith PendingCall.mk (List.range' t.nextID callers.length) callers ∧
    (t.issueAll callers).delivered = t.delivered ∧
    (t.issueAll callers).discarded = t.discarded := by
  induction callers generalizing t with
  | nil => simp [Transport.issueAll]
  | cons c rest ih =>
    obtain ⟨h1, h2, h3⟩ := ih (t.issue c)
    simp only [Transport.issueAll]
    refine ⟨?_, h2, h3⟩
    rw [h1]
    simp [Transport.issue, List.range'_succ]

/-- Among calls issued with consecutive ids from `s` on, the call with id `id`
is the one of the caller at position `id - s`. -/
theorem find_issued (callers : List Nat) (s id : Nat) (hlo : s ≤ id)
    (hhi : id < s + callers.length) :
    (List.zipWith PendingCall.mk (List.range' s callers.length) callers).find?
        (fun p => decide (p.id = id)) =
      some { id := id, caller := callers.getD (id - s) 0 } := by
  induction callers generalizing s with
  | nil => simp at hhi; omega
  | cons c rest ih =>
    by_cases hs : s = id
    · subst hs
      simp [List.range'_succ]
    · have hrec := ih (s + 1) (by omega) (by simp at hhi; omega)
      have hsub : id - s = (id - (s + 1)) + 1 := by omega
      simp only [List.length_cons, List.range'_succ, List.zipWith_cons_cons]
      rw [List.find?_cons_of_neg _ (by simpa using hs), hrec, hsub]
      simp

/-- Removing the pending call of another id does not change which call is found
for an id. -/
theorem find_after_remove (pending : List PendingCall) (x y : Nat) (hxy : y ≠ x) :
    (pending.filter (fun p => decide (p.id ≠ x))).find? (fun p => decide (p.id = y)) =
      pending.find? (fun p => decide (p.id = y)) := by
  rw [List.find?_filter]
  congr 1
  funext p
  by_cases h : p.id = y
  · simp [h, hxy]
  · simp [h]

/-- Responses with distinct ids, each answering a pending call, are handed in
their order of arrival each to the caller of the call with its id; none is
discarded, and exactly the answered calls stop being pending. -/
theorem dispatchAll_spec (responses : List ResponseMessage) (t : Transport)
    (hnodup : (responses.map (fun r => r.id)).Nodup)
    (hpending : ∀ r ∈ responses, ∃ call, t.pending.find? (fun p => decide (p.id = r.id)) =
      some call) :
    (t.dispatchAll responses).delivered =
        t.delivered ++ responses.map (fun r => (callerOf t.pending r.id, r)) ∧
    (t.dispatchAll responses).discarded = t.discarded ∧
    (t.dispatchAll responses).pending =
      t.pending.filter (fun p => decide (p.id ∉ responses.map (fun r => r.id))) := by
  induction responses generalizing t with
  | nil => simp [Transport.dispatchAll]
  | cons r rest ih =>
    obtain ⟨call, hcall⟩ := hpending r (by simp)
    have hnd : (rest.map (fun r => r.id)).Nodup := (List.nodup_cons.mp hnodup).2
    have hnotin : r.id ∉ rest.map (fun r => r.id) := (List.nodup_cons.mp hnodup).1
    have hstep : t.dispatch r =
        { t with pending := t.pending.filter (fun p => decide (p.id ≠ r.id)),
                 delivered := t.delivered ++ [(call.caller, r)] } := by
      simp [Transport.dispatch, hcall]
    have hne : ∀ r2 ∈ rest, r2.id ≠ r.id := by
      intro r2 h2 he
      exact hnotin (he ▸ List.mem_map_of_mem (fun r => r.id) h2)
    have hpend2 : ∀ r2 ∈ rest, ∃ call2,
        (t.dispatch r).pending.find? (fun p => decide (p.id = r2.id)) = some call2 := by
      intro r2 h2
      obtain ⟨c2, hc2⟩ := hpending r2 (by simp [h2])
      refine ⟨c2, ?_⟩
      rw [hstep]
      simp only
      rw [find_after_remove t.pending r.id r2.id (hne r2 h2), hc2]
    obtain ⟨h1, h2, h3⟩ := ih (t.dispatch r) hnd hpend2
    simp only [Transport.dispatchAll]
    refine ⟨?_, ?_, ?_⟩
    · rw [h1, hstep]
      simp only [List.map_cons, List.append_assoc, List.singleton_append]
      congr 1
      have hc : callerOf t.pending r.id = call.caller := by simp [callerOf, hcall]
      rw [hc]
      congr 1
      apply List.map_congr_left
      intro r2 h2
      simp only [callerOf]
      rw [find_after_remove t.pending r.id r2.id (hne r2 h2)]
    · rw [h2, hstep]
    · rw [h3, hstep]
      simp only [List.filter_filter, List.map_cons, List.mem_cons]
      apply List.filter_congr
      intro p _
      by_cases hp : p.id = r.id <;> simp [hp]

/-- The calls issued with consecutive ids from `s` on carry ids in that
range. -/
theorem issued_id_range (callers : List Nat) (s : Nat) (p : PendingCall)
    (hp : p ∈ List.zipWith PendingCall.mk (List.range' s callers.length) callers) :
    p.id ∈ List.range' s callers.length := by
  induction callers generalizing s with
  | nil => simp at hp
  | cons c rest ih =>
    simp only [List.length_cons, List.range'_succ, List.zipWith_cons_cons, List.mem_cons] at hp ⊢
    rcases hp with h | h
    · left; rw [h]
    · right; exact ih (s + 1) h

/-- C23: with `N` calls outstanding at once, issued by `callers` with the fresh
ids `s, s + 1, ...`, and their `N` responses arriving in any order (the ids of
the responses are a permutation of the ids issued), every response is handed,
in its order of arrival, to the caller that issued the call with its id; no
response is discarded and no call stays pending; so for each call exactly one
response is delivered, the one carrying its id, and it goes to its caller. -/
theorem calls_receive_own_responses (s : Nat) (callers : List Nat)
    (responses : List ResponseMessage)
    (hperm : (responses.map (fun r => r.id)).Perm (List.range' s callers.length)) :
    ((Transport.issueAll ⟨s, [], [], []⟩ callers).dispatchAll responses).delivered =
      responses.map (fun r => (callers.getD (r.id - s) 0, r)) ∧
    ((Transport.issueAll ⟨s, [], [], []⟩ callers).dispatchAll responses).pending = [] ∧
    ((Transport.issueAll ⟨s, [], [], []⟩ callers).dispatchAll responses).discarded = [] ∧
    ∀ k, k < callers.length →
      (((Transport.issueAll ⟨s, [], [], []⟩ callers).dispatchAll responses).delivered.filter
        (fun d => decide (d.2.id = s + k))).length = 1 ∧
      ∀ d ∈ ((Transport.issueAll ⟨s, [], [], []⟩ callers).dispatchAll responses).delivered,
        d.2.id = s + k → d.1 = callers.getD k 0 := by
  obtain ⟨hp1, hd1, hx1⟩ := issueAll_spec callers ⟨s, [], [], []⟩
  simp only [List.nil_append] at hp1 hd1 hx1
  have hnodup : (responses.map (fun r => r.id)).Nodup :=
    hperm.nodup_iff.mpr (List.nodup_range' s callers.length)
  have hrange : ∀ r ∈ responses, s ≤ r.id ∧ r.id < s + callers.length := by
    intro r hr
    have hm : r.id ∈ List.range' s callers.length :=
      hperm.mem_iff.mp (List.mem_map_of_mem (fun r => r.id) hr)
    simpa [List.mem_range'_1] using hm
  have hfind : ∀ r ∈ responses,
      (Transport.issueAll ⟨s, [], [], []⟩ callers).pending.find?
          (fun p => decide (p.id = r.id)) =
        some { id := r.id, caller := callers.getD (r.id - s) 0 } := by
    intro r hr
    rw [hp1]
    exact find_issued callers s r.id (hrange r hr).1 (hrange r hr).2
  obtain ⟨h1, h2, h3⟩ := dispatchAll_spec responses (Transport.issueAll ⟨s, [], [], []⟩ callers)
    hnodup (fun r hr => ⟨_, hfind r hr⟩)
  have hdel : ((Transport.issueAll ⟨s, [], [], []⟩ callers).dispatchAll responses).delivered =
      responses.map (fun r => (callers.getD (r.id - s) 0, r)) := by
    rw [h1, hd1, List.nil_append]
    apply List.map_congr_left
    intro r hr
    simp [callerOf, hfind r hr]
  refine ⟨hdel, ?_, ?_, ?_⟩
  · rw [h3, List.filter_eq_nil_iff]
    intro p hp
    rw [hp1] at hp
    have hm := issued_id_range callers s p hp
    have hin : p.id ∈ responses.map (fun r => r.id) := hperm.mem_iff.mpr hm
    simpa using hin
  · rw [h2, hx1]
  · intro k hk
    rw [hdel]
    constructor
    · have hmem : s + k ∈ List.range' s callers.length := by
        simp [List.mem_range'_1]
        omega
      have hcount : (responses.map (fun r => r.id)).count (s + k) = 1 := by
        rw [hperm.count_eq]
        exact List.count_eq_one_of_mem (List.nodup_range' s callers.length) hmem
      rw [List.count, List.countP_map, List.countP_eq_length_filter] at hcount
      rw [List.filter_map, List.length_map]
      rw [← hcount]
      congr 1
    · intro d hd hid
      obtain ⟨r, -, rfl⟩ := List.mem_map.mp hd
      simp only at hid ⊢
      rw [hid]
      congr 1
      omega

/-- C23 on three calls by callers 10, 11 and 12 with ids 1, 2 and 3, answered
in the order 3, 1, 2: each response reaches the caller of its id. -/
theorem calls_receive_own_responses_witness :
    ([3, 1, 2] : List Nat).Perm (List.range' 1 3) ∧
    ((Transport.issueAll ⟨1, [], [], []⟩ [10, 11, 12]).dispatchAll
        [⟨3, some "c", none⟩, ⟨1, some "a", none⟩, ⟨2, none, some "failed"⟩]).delivered =
      [(12, ⟨3, some "c", none⟩), (10, ⟨1, some "a", none⟩),
       (11, ⟨2, none, some "failed"⟩)] := by
  have hperm : ([3, 1, 2] : List Nat).Perm (List.range' 1 3) := by decide
  have key := calls_receive_own_responses 1 [10, 11, 12]
    [⟨3, some "c", none⟩, ⟨1, some "a", none⟩, ⟨2, none, some "failed"⟩] hperm
  refine ⟨hperm, ?_⟩
  rw [key.1]
  decide

end McpLanguageServer
